import Mathlib

/-!
# Verification of the LifeRPG core engine

A shallow embedding of the core gameplay engine of the LifeRPG repository
(`ngp` package): the cycle service (`ngp/services/cycle.py`), the progression
arithmetic (`ngp/services/progression.py`, `ngp/models/player.py`,
`ngp/models/skill.py`, `ngp/models/mission.py`), and the completion
transaction (`ngp/loops/action.py`) over a pure model of the SQLite store
(`ngp/services/storage.py`).

Modelling conventions:
* Python `datetime` values are modelled as a day number since 1970-01-01 plus
  the microsecond of the day; Gregorian conversions use the standard civil
  calendar algorithms, and `weekday()` follows Python (Monday = 0).
* `random.choice` is modelled by an injected index `rng`: the selected element
  is the one at position `rng % length`, so a uniform `rng` yields the uniform
  selection the code requests from the ambient generator.
* Floating point: `math.ceil(120 * level ** 1.5)` is modelled exactly as
  `⌈√(14400 · level³)⌉`, the real value the float computation approximates.
* The store is a record of lists; `INSERT OR REPLACE` keyed by the `id`
  primary key becomes replace-in-place-or-append, row order standing in for
  the table. Presentation-only columns (colors, notes, timestamps that no
  core code path reads) are omitted.
* Fallible Python code (a raised `ValueError` for a missing mission, the
  `AttributeError` from `None.isoformat()` in `create_cycle_id`) is embedded
  with `Except` over an error type with one constructor per exception site.
-/

namespace LifeRPG

/-! ## Dates and times -/

/-- A naive `datetime`: `days` since 1970-01-01 plus the microsecond of day. -/
structure DateTime where
  days : Int
  usec : Nat
  deriving Repr, DecidableEq

/-- `days_from_civil` (Gregorian): day number of `y-m-d` relative to 1970-01-01. -/
def daysFromCivil (y : Int) (m d : Nat) : Int :=
  let y1 : Int := if m ≤ 2 then y - 1 else y
  let era : Int := y1.fdiv 400
  let yoe : Int := y1 - era * 400
  let mp : Int := if 2 < m then (m : Int) - 3 else (m : Int) + 9
  let doy : Int := (153 * mp + 2).fdiv 5 + (d : Int) - 1
  let doe : Int := yoe * 365 + yoe.fdiv 4 - yoe.fdiv 100 + doy
  era * 146097 + doe - 719468

/-- `civil_from_days` (Gregorian): `(year, month, day)` of a day number. -/
def civilFromDays (z0 : Int) : Int × Nat × Nat :=
  let z := z0 + 719468
  let era := z.fdiv 146097
  let doe := (z - era * 146097).toNat
  let yoe := (doe - doe / 1460 + doe / 36524 - doe / 146096) / 365
  let doy := doe - (365 * yoe + yoe / 4 - yoe / 100)
  let mp := (5 * doy + 2) / 153
  let d := doy - (153 * mp + 2) / 5 + 1
  let mo := if mp < 10 then mp + 3 else mp - 9
  let y : Int := (yoe : Int) + era * 400 + (if mo ≤ 2 then 1 else 0)
  (y, mo, d)

/-- Build a `DateTime` from civil year/month/day and an hour/minute of day. -/
def mkDateTime (y : Int) (m d h mi : Nat) : DateTime :=
  { days := daysFromCivil y m d, usec := (h * 3600 + mi * 60) * 1000000 }

/-- Total order on datetimes (`datetime` comparison): lexicographic. -/
def DateTime.le (a b : DateTime) : Prop :=
  a.days < b.days ∨ (a.days = b.days ∧ a.usec ≤ b.usec)

/-- Strict order on datetimes. -/
def DateTime.lt (a b : DateTime) : Prop :=
  a.days < b.days ∨ (a.days = b.days ∧ a.usec < b.usec)

instance (a b : DateTime) : Decidable (DateTime.le a b) :=
  inferInstanceAs (Decidable (_ ∨ _))

instance (a b : DateTime) : Decidable (DateTime.lt a b) :=
  inferInstanceAs (Decidable (_ ∨ _))

/-- Python's `weekday()`: Monday = 0 (1970-01-01 was a Thursday, = 3). -/
def DateTime.weekday (t : DateTime) : Int :=
  (t.days + 3) % 7

/-- Left-pad a numeral with zeros, as `datetime.isoformat` prints fields. -/
def padNum (width n : Nat) : String :=
  let s := toString n
  if s.length < width then String.mk (List.replicate (width - s.length) '0') ++ s
  else s

/-- `datetime.isoformat()`: `YYYY-MM-DDTHH:MM:SS`, with a `.ffffff` suffix
only when the microsecond field is nonzero (years in scope are positive). -/
def DateTime.isoformat (t : DateTime) : String :=
  let c := civilFromDays t.days
  let micro := t.usec % 1000000
  let totalSec := t.usec / 1000000
  let s := totalSec % 60
  let mi := totalSec / 60 % 60
  let h := totalSec / 3600
  padNum 4 c.1.toNat ++ "-" ++ padNum 2 c.2.1 ++ "-" ++ padNum 2 c.2.2 ++ "T" ++
    padNum 2 h ++ ":" ++ padNum 2 mi ++ ":" ++ padNum 2 s ++
    (if micro == 0 then "" else "." ++ padNum 6 micro)

/-! ## Leveling arithmetic (`models/player.py`, `models/skill.py`) -/

/-- Fuelled integer Newton iteration for the floor square root. -/
def isqrtIter (n : Nat) : Nat → Nat → Nat
  | 0, x => x
  | fuel + 1, x =>
    let y := (x + n / x) / 2
    if y < x then isqrtIter n fuel y else x

/-- Least `k` with `n ≤ k * k` (the ceiling of the real square root). -/
def ceilSqrt (n : Nat) : Nat :=
  let r := isqrtIter n (n + 1) (n + 1)
  if n ≤ r * r then r else r + 1

/-- XP needed to advance from `level`: `ceil(120 * level ** 1.5)`, computed
exactly as `⌈√(14400 · level³)⌉`. -/
def xpRequirement (level : Nat) : Nat :=
  ceilSqrt (14400 * level ^ 3)

/-! ## Data model (`models/player.py`, `models/skill.py`, `models/mission.py`,
`models/completion.py`) -/

/-- `Player` (`models/player.py`), restricted to the fields the core engine
reads or writes. -/
structure Player where
  id : String
  level : Nat := 1
  xp : Nat := 0
  coins : Nat := 0
  day_starts_at : Nat := 0
  deriving Repr, DecidableEq

/-- `Player.xp_for_next_level`: `ceil(120 × level^1.5)`. -/
def Player.xp_for_next_level (p : Player) : Nat :=
  xpRequirement p.level

/-- `Player.add_xp`: add XP; on reaching the requirement, subtract it and
advance one level. Returns the updated player and the level-up flag
(the Python method mutates `self` and returns the flag). -/
def Player.add_xp (p : Player) (amount : Nat) : Player × Bool :=
  let xp1 := p.xp + amount
  let xp_needed := p.xp_for_next_level
  if xp_needed ≤ xp1 then
    ({ p with xp := xp1 - xp_needed, level := p.level + 1 }, true)
  else
    ({ p with xp := xp1 }, false)

/-- `Player.add_coins`. -/
def Player.add_coins (p : Player) (amount : Nat) : Player :=
  { p with coins := p.coins + amount }

/-- `CycleType` (`models/skill.py`). -/
inductive CycleType where
  | daily
  | weekly
  | monthly
  | custom
  deriving Repr, DecidableEq

/-- `Skill` (`models/skill.py`), restricted to the fields the core engine
reads or writes (`name` is kept: level-up reporting lists skill names). -/
structure Skill where
  id : String
  name : String
  level : Nat := 1
  xp : Nat := 0
  is_archived : Bool := false
  is_focus : Bool := false
  cycle_type : CycleType := .weekly
  cycle_start : Option DateTime := none
  cycle_end : Option DateTime := none
  target_mission_id : Option String := none
  has_hit_target_this_cycle : Bool := false
  missions_count : Nat := 0
  deriving Repr, DecidableEq

/-- `Skill.is_ready`: at least 8 assigned missions. -/
def Skill.is_ready (s : Skill) : Bool :=
  decide (8 ≤ s.missions_count)

/-- `Skill.xp_for_next_level`: `ceil(120 × level^1.5)`, doubled for a Focus
skill. -/
def Skill.xp_for_next_level (s : Skill) : Nat :=
  let base_xp := xpRequirement s.level
  if s.is_focus then base_xp * 2 else base_xp

/-- `Skill.add_xp`: add XP; on reaching the requirement, subtract it and
advance one level. Returns the updated skill and the level-up flag. -/
def Skill.add_xp (s : Skill) (amount : Nat) : Skill × Bool :=
  let xp1 := s.xp + amount
  let xp_needed := s.xp_for_next_level
  if xp_needed ≤ xp1 then
    ({ s with xp := xp1 - xp_needed, level := s.level + 1 }, true)
  else
    ({ s with xp := xp1 }, false)

/-- `Mission` (`models/mission.py`), restricted to the fields the core engine
reads (`__post_init__` validation is the predicate `Mission.wellFormed`). -/
structure Mission where
  id : String
  title : String
  skill_ids : List String := []
  difficulty : Nat := 1
  energy : Nat := 1
  is_archived : Bool := false
  deriving Repr, DecidableEq

/-- The `__post_init__` checks: difficulty and energy in 1..5, at most two
attached skills. -/
def Mission.wellFormed (m : Mission) : Prop :=
  1 ≤ m.difficulty ∧ m.difficulty ≤ 5 ∧ 1 ≤ m.energy ∧ m.energy ≤ 5 ∧
    m.skill_ids.length ≤ 2

/-- `Mission.base_player_xp`: `4 × difficulty`. -/
def Mission.base_player_xp (m : Mission) : Nat := 4 * m.difficulty

/-- `Mission.base_skill_xp`: `8 × difficulty`. -/
def Mission.base_skill_xp (m : Mission) : Nat := 8 * m.difficulty

/-- `Mission.coins_reward`: `2 × difficulty`. -/
def Mission.coins_reward (m : Mission) : Nat := 2 * m.difficulty

/-- `Mission.cycle_player_xp`: `40 × difficulty`. -/
def Mission.cycle_player_xp (m : Mission) : Nat := 40 * m.difficulty

/-- `Mission.cycle_skill_xp`: `80 × difficulty`. -/
def Mission.cycle_skill_xp (m : Mission) : Nat := 80 * m.difficulty

/-- `Award` (`models/completion.py`): the value object a completion bundles. -/
structure Award where
  base_player_xp : Nat
  base_skill_xp_map : List (String × Nat)
  coins : Nat
  cycle_xp_applied_skill_id : Option String := none
  deriving Repr, DecidableEq

/-- `Completion` (`models/completion.py`), restricted to the fields the core
engine reads or writes. -/
structure Completion where
  id : String
  mission_id : String
  completed_at : DateTime
  award : Award
  cycle_id : String
  deriving Repr, DecidableEq

/-! ## Progression service (`services/progression.py`) -/

/-- `ProgressionService.calculate_base_awards`. -/
def calculate_base_awards (mission : Mission) : Award :=
  { base_player_xp := mission.base_player_xp
    base_skill_xp_map := mission.skill_ids.map (fun sid => (sid, mission.base_skill_xp))
    coins := mission.coins_reward }

/-- `ProgressionService.calculate_cycle_bonus` (the `skill` argument is unused
in the source as well). -/
def calculate_cycle_bonus (mission : Mission) (_skill : Skill) : Nat × Nat :=
  (mission.cycle_player_xp, mission.cycle_skill_xp)

/-! ## Cycle service (`services/cycle.py`) -/

/-- `CycleService.create_cycle_id`: `"skill_id:cycle_start_iso"`. -/
def create_cycle_id (skill_id : String) (cycle_start : DateTime) : String :=
  skill_id ++ ":" ++ cycle_start.isoformat

/-- `CycleService.should_start_new_cycle`: the cycle end is unset or passed. -/
def should_start_new_cycle (skill : Skill) (current_time : DateTime) : Bool :=
  match skill.cycle_end with
  | none => true
  | some e => decide (DateTime.le e current_time)

/-- `CycleService.calculate_cycle_boundaries`: align the reference time to the
day-start hour (a plain `replace(hour=...)` in the source), then snap per
cadence; custom falls back to weekly. -/
def calculate_cycle_boundaries (cycle_type : CycleType) (current_time : DateTime)
    (day_starts_at : Nat) : DateTime × DateTime :=
  let aligned_time : DateTime := { days := current_time.days, usec := day_starts_at * 3600000000 }
  match cycle_type with
  | .daily =>
    let cycle_start := aligned_time
    (cycle_start, { cycle_start with days := cycle_start.days + 1 })
  | .weekly =>
    let days_since_monday := aligned_time.weekday
    let cycle_start := { aligned_time with days := aligned_time.days - days_since_monday }
    (cycle_start, { cycle_start with days := cycle_start.days + 7 })
  | .monthly =>
    let c := civilFromDays aligned_time.days
    let cycle_start := { aligned_time with days := daysFromCivil c.1 c.2.1 1 }
    let cycle_end :=
      if c.2.1 == 12 then { cycle_start with days := daysFromCivil (c.1 + 1) 1 1 }
      else { cycle_start with days := daysFromCivil c.1 (c.2.1 + 1) 1 }
    (cycle_start, cycle_end)
  | .custom =>
    let days_since_monday := aligned_time.weekday
    let cycle_start := { aligned_time with days := aligned_time.days - days_since_monday }
    (cycle_start, { cycle_start with days := cycle_start.days + 7 })

/-- `CycleService.select_target_mission`: `random.choice`, modelled by the
injected index `rng` (uniform over `rng` gives the uniform choice). -/
def select_target_mission (missions : List Mission) (rng : Nat) : Option String :=
  match missions.get? (rng % missions.length) with
  | none => none
  | some m => some m.id

/-- `CycleService.start_new_cycle`: recompute boundaries, reset the target-hit
flag, refresh the mission count, and re-draw the target when ready. -/
def start_new_cycle (skill : Skill) (missions : List Mission) (current_time : DateTime)
    (day_starts_at : Nat) (rng : Nat) : Skill :=
  let b := calculate_cycle_boundaries skill.cycle_type current_time day_starts_at
  let s1 := { skill with
    cycle_start := some b.1
    cycle_end := some b.2
    has_hit_target_this_cycle := false
    missions_count := missions.length }
  if s1.is_ready then { s1 with target_mission_id := select_target_mission missions rng }
  else { s1 with target_mission_id := none }

/-- `CycleService.finalize_cycle`: a no-op hook. -/
def finalize_cycle (skill : Skill) : Skill := skill

/-- `CycleService.is_target_hit`. -/
def is_target_hit (skill : Skill) (mission_id : String) : Bool :=
  skill.target_mission_id == some mission_id && !skill.has_hit_target_this_cycle

/-- `CycleService.mark_target_hit`. -/
def mark_target_hit (skill : Skill) : Skill :=
  { skill with has_hit_target_this_cycle := true }

/-! ## Storage (`services/storage.py`), as a pure record of rows

Queries are `find?`/`filter` over the row lists; `INSERT OR REPLACE` keyed by
the `id` primary key replaces the matching row in place (or appends). The
`ORDER BY order_idx` listing order is abstracted to row order: every core
write is keyed by `id`, so the iteration order of `get_skills` does not
affect any per-skill outcome. -/

/-- The store: the `player`, `skills`, `missions` and `completions` tables. -/
structure State where
  player : Option Player := none
  skills : List Skill := []
  missions : List Mission := []
  completions : List Completion := []
  deriving Repr, DecidableEq

/-- `StorageService.get_skill` (note: it does not filter archived skills). -/
def get_skill (skills : List Skill) (skill_id : String) : Option Skill :=
  skills.find? (fun s => s.id == skill_id)

/-- `StorageService.get_skills`. -/
def get_skills (skills : List Skill) (include_archived : Bool) : List Skill :=
  if include_archived then skills else skills.filter (fun s => !s.is_archived)

/-- `StorageService.save_skill` (`INSERT OR REPLACE` on the `id` key). -/
def save_skill (skills : List Skill) (skill : Skill) : List Skill :=
  if skills.any (fun s => s.id == skill.id) then
    skills.map (fun s => if s.id == skill.id then skill else s)
  else skills ++ [skill]

/-- `StorageService.get_mission`. -/
def get_mission (missions : List Mission) (mission_id : String) : Option Mission :=
  missions.find? (fun m => m.id == mission_id)

/-- `StorageService.get_missions`. -/
def get_missions (missions : List Mission) (include_archived : Bool) : List Mission :=
  if include_archived then missions else missions.filter (fun m => !m.is_archived)

/-- `StorageService.save_completion` (a plain `INSERT`). -/
def save_completion (completions : List Completion) (completion : Completion) :
    List Completion :=
  completions ++ [completion]

/-- `StorageService.get_completions_for_mission_in_cycle`: the idempotency
guard query, keyed by `(mission_id, cycle_id)`. -/
def get_completions_for_mission_in_cycle (completions : List Completion)
    (mission_id cycle_id : String) : List Completion :=
  completions.filter (fun c => c.mission_id == mission_id && c.cycle_id == cycle_id)

/-! ## Action loop (`loops/action.py`) -/

/-- The exceptions `complete_mission` can raise: the explicit `ValueError` for
a missing mission, the `AttributeError` from `None.isoformat()` inside
`create_cycle_id` when a skill has no `cycle_start`, and (for the
fault-injection model of the store) a failed write. -/
inductive CMErr where
  | missionNotFound (mission_id : String)
  | attributeNoneError
  | storeWriteFailed
  deriving Repr, DecidableEq

/-- `ActionLoop._get_missions_for_skill`: non-archived missions listing the
skill. -/
def get_missions_for_skill (st : State) (skill_id : String) : List Mission :=
  (get_missions st.missions false).filter (fun m => m.skill_ids.contains skill_id)

/-- One iteration of `ActionLoop._update_all_cycles`: roll the skill's cycle
if it is stale and save it. -/
def roll_skill (day_starts_at : Nat) (now : DateTime) (rng : Nat) (st : State)
    (skill : Skill) : State :=
  if should_start_new_cycle skill now then
    let skill := finalize_cycle skill
    let missions := get_missions_for_skill st skill.id
    let skill := start_new_cycle skill missions now day_starts_at rng
    { st with skills := save_skill st.skills skill }
  else st

/-- `ActionLoop._update_all_cycles`: roll every stale non-archived skill. -/
def update_all_cycles (st : State) (day_starts_at : Nat) (now : DateTime) (rng : Nat) :
    State :=
  (get_skills st.skills false).foldl (roll_skill day_starts_at now rng) st

/-- The loop-carried state of `complete_mission`'s per-skill loop: the skills
table (each iteration ends in `save_skill`), the player (the cycle bonus
mutates it mid-loop), the award (the bonus stamps it), and the reporting
accumulators. -/
structure LoopAcc where
  skills : List Skill
  player : Player
  award : Award
  cycle_bonus_applied_to : Option String
  skill_level_ups : List String
  player_leveled_up : Bool

/-- One iteration of `complete_mission`'s per-skill loop (`action.py` lines
102-147): resolve the skill (soft-skip when absent), run the idempotency
guard, apply base skill XP, and apply the cycle bonus on a target hit. -/
def process_one_skill (completions : List Completion) (mission_id : String)
    (mission : Mission) (acc : LoopAcc) (skill_id : String) : Except CMErr LoopAcc :=
  match get_skill acc.skills skill_id with
  | none => .ok acc
  | some skill =>
    match skill.cycle_start with
    | none => .error .attributeNoneError
    | some cstart =>
      let cycle_id := create_cycle_id skill_id cstart
      let existing := get_completions_for_mission_in_cycle completions mission_id cycle_id
      if existing.isEmpty then
        let amt := (acc.award.base_skill_xp_map.lookup skill_id).getD 0
        let r1 := Skill.add_xp skill amt
        let ups :=
          if r1.2 then acc.skill_level_ups ++ [r1.1.name] else acc.skill_level_ups
        if is_target_hit r1.1 mission_id then
          let bonus := calculate_cycle_bonus mission r1.1
          let rp := Player.add_xp acc.player bonus.1
          let r2 := Skill.add_xp r1.1 bonus.2
          let skill3 := mark_target_hit r2.1
          .ok { skills := save_skill acc.skills skill3
                player := rp.1
                award := { acc.award with cycle_xp_applied_skill_id := some skill_id }
                cycle_bonus_applied_to := some skill_id
                skill_level_ups := ups
                player_leveled_up := acc.player_leveled_up || rp.2 }
        else
          .ok { acc with skills := save_skill acc.skills r1.1, skill_level_ups := ups }
      else .ok acc

/-- `complete_mission`'s per-skill loop over the mission's skill ids. -/
def process_skills (completions : List Completion) (mission_id : String)
    (mission : Mission) : List String → LoopAcc → Except CMErr LoopAcc
  | [], acc => .ok acc
  | sid :: rest, acc =>
    match process_one_skill completions mission_id mission acc sid with
    | .error e => .error e
    | .ok acc1 => process_skills completions mission_id mission rest acc1

/-- The completion record's cycle id (`action.py` lines 157-162): the first
attached skill's current cycle, or the `"no_skill"` sentinel. -/
def first_skill_cycle_id (skills : List Skill) (skill_ids : List String) :
    Except CMErr String :=
  match skill_ids.head? with
  | none => .ok "no_skill"
  | some sid0 =>
    match get_skill skills sid0 with
    | none => .ok "no_skill"
    | some sk =>
      match sk.cycle_start with
      | none => .error .attributeNoneError
      | some cs => .ok (create_cycle_id sid0 cs)

/-- The returned summary of `ActionLoop.complete_mission`, bundled with the
final store and the mutated player. -/
structure CMOut where
  state : State
  player : Player
  completion : Completion
  player_leveled_up : Bool
  skill_level_ups : List String
  cycle_bonus_applied : Bool
  xp_earned : Nat
  coins_earned : Nat
  deriving Repr, DecidableEq

/-- The tail of `complete_mission` after the per-skill loop (`action.py`
lines 149-181): the unconditional base player XP and coins, the player save,
and the completion record keyed to the first attached skill's cycle. -/
def finish_completion (st1 : State) (mission_id : String) (now : DateTime)
    (new_completion_id : String) (mission : Mission) (acc : LoopAcc) :
    Except CMErr CMOut :=
  let rp := Player.add_xp acc.player acc.award.base_player_xp
  let player_leveled_up := acc.player_leveled_up || rp.2
  let pl3 := Player.add_coins rp.1 acc.award.coins
  let st2 : State := { st1 with skills := acc.skills, player := some pl3 }
  match first_skill_cycle_id st2.skills mission.skill_ids with
  | .error e => .error e
  | .ok cycle_id =>
    let completion : Completion :=
      { id := new_completion_id, mission_id := mission_id, completed_at := now
        award := acc.award, cycle_id := cycle_id }
    let st3 := { st2 with completions := save_completion st2.completions completion }
    .ok { state := st3, player := pl3, completion := completion
          player_leveled_up := player_leveled_up
          skill_level_ups := acc.skill_level_ups
          cycle_bonus_applied := acc.cycle_bonus_applied_to.isSome
          xp_earned := acc.award.base_player_xp
          coins_earned := acc.award.coins }

/-- `ActionLoop.complete_mission`. `now` stands for `datetime.now()`, `rng`
for the ambient random generator, and `new_completion_id` for the fresh
`uuid4` of the completion record. -/
def complete_mission (st : State) (mission_id : String) (player : Player)
    (now : DateTime) (rng : Nat) (new_completion_id : String) : Except CMErr CMOut :=
  match get_mission st.missions mission_id with
  | none => .error (.missionNotFound mission_id)
  | some mission =>
    let st1 := update_all_cycles st player.day_starts_at now rng
    let award := calculate_base_awards mission
    let acc0 : LoopAcc :=
      { skills := st1.skills, player := player, award := award
        cycle_bonus_applied_to := none, skill_level_ups := [], player_leveled_up := false }
    match process_skills st1.completions mission_id mission mission.skill_ids acc0 with
    | .error e => .error e
    | .ok acc => finish_completion st1 mission_id now new_completion_id mission acc

/-! ## Fault-injection model of the store

For the atomicity analysis, the same transaction with a fallible store: every
`save_*` call is one write that the underlying store commits immediately
(each `storage.py` method ends in `self.conn.commit()`, and `complete_mission`
has no transaction or rollback around it). The store accepts `budget` writes
and then fails; a failed write raises `storeWriteFailed`, and the error
carries the state committed so far — the writes already performed stay
applied. -/

/-- Per-skill loop state for the fault-injection run: the committed store and
remaining write budget ride along. -/
structure FIAcc where
  st : State
  budget : Nat
  player : Player
  award : Award
  cycle_bonus_applied_to : Option String
  skill_level_ups : List String
  player_leveled_up : Bool

/-- A budgeted committed write. -/
def fi_write (st : State) (budget : Nat) (f : State → State) :
    Except (CMErr × State × Nat) (State × Nat) :=
  if budget = 0 then .error (.storeWriteFailed, st, budget)
  else .ok (f st, budget - 1)

/-- `roll_skill` with a budgeted `save_skill`. -/
def roll_skill_fi (day_starts_at : Nat) (now : DateTime) (rng : Nat)
    (acc : State × Nat) (skill : Skill) : Except (CMErr × State × Nat) (State × Nat) :=
  if should_start_new_cycle skill now then
    let skill := finalize_cycle skill
    let missions := get_missions_for_skill acc.1 skill.id
    let skill := start_new_cycle skill missions now day_starts_at rng
    fi_write acc.1 acc.2 (fun st => { st with skills := save_skill st.skills skill })
  else .ok acc

/-- `_update_all_cycles` with budgeted writes. -/
def update_all_cycles_fi (st : State) (budget : Nat) (day_starts_at : Nat)
    (now : DateTime) (rng : Nat) : Except (CMErr × State × Nat) (State × Nat) :=
  (get_skills st.skills false).foldlM (roll_skill_fi day_starts_at now rng) (st, budget)

/-- `process_one_skill` with a budgeted `save_skill`. -/
def process_one_skill_fi (mission_id : String) (mission : Mission) (acc : FIAcc)
    (skill_id : String) : Except (CMErr × State × Nat) FIAcc :=
  match get_skill acc.st.skills skill_id with
  | none => .ok acc
  | some skill =>
    match skill.cycle_start with
    | none => .error (.attributeNoneError, acc.st, acc.budget)
    | some cstart =>
      let cycle_id := create_cycle_id skill_id cstart
      let existing :=
        get_completions_for_mission_in_cycle acc.st.completions mission_id cycle_id
      if existing.isEmpty then
        let amt := (acc.award.base_skill_xp_map.lookup skill_id).getD 0
        let r1 := Skill.add_xp skill amt
        let ups :=
          if r1.2 then acc.skill_level_ups ++ [r1.1.name] else acc.skill_level_ups
        if is_target_hit r1.1 mission_id then
          let bonus := calculate_cycle_bonus mission r1.1
          let rp := Player.add_xp acc.player bonus.1
          let r2 := Skill.add_xp r1.1 bonus.2
          let skill3 := mark_target_hit r2.1
          match fi_write acc.st acc.budget
              (fun st => { st with skills := save_skill st.skills skill3 }) with
          | .error e => .error e
          | .ok sb =>
            .ok { st := sb.1, budget := sb.2
                  player := rp.1
                  award := { acc.award with cycle_xp_applied_skill_id := some skill_id }
                  cycle_bonus_applied_to := some skill_id
                  skill_level_ups := ups
                  player_leveled_up := acc.player_leveled_up || rp.2 }
        else
          match fi_write acc.st acc.budget
              (fun st => { st with skills := save_skill st.skills r1.1 }) with
          | .error e => .error e
          | .ok sb => .ok { acc with st := sb.1, budget := sb.2, skill_level_ups := ups }
      else .ok acc

/-- The per-skill loop with budgeted writes. -/
def process_skills_fi (mission_id : String) (mission : Mission) :
    List String → FIAcc → Except (CMErr × State × Nat) FIAcc
  | [], acc => .ok acc
  | sid :: rest, acc =>
    match process_one_skill_fi mission_id mission acc sid with
    | .error e => .error e
    | .ok acc1 => process_skills_fi mission_id mission rest acc1

/-- `ActionLoop.complete_mission` against the fault-injection store. On
success it returns the summary and the remaining budget; on failure, the
exception together with the state whose writes were already committed. -/
def complete_mission_fi (st : State) (budget : Nat) (mission_id : String)
    (player : Player) (now : DateTime) (rng : Nat) (new_completion_id : String) :
    Except (CMErr × State × Nat) (CMOut × Nat) :=
  match get_mission st.missions mission_id with
  | none => .error (.missionNotFound mission_id, st, budget)
  | some mission =>
    match update_all_cycles_fi st budget player.day_starts_at now rng with
    | .error e => .error e
    | .ok sb1 =>
      let award := calculate_base_awards mission
      let acc0 : FIAcc :=
        { st := sb1.1, budget := sb1.2, player := player, award := award
          cycle_bonus_applied_to := none, skill_level_ups := [], player_leveled_up := false }
      match process_skills_fi mission_id mission mission.skill_ids acc0 with
      | .error e => .error e
      | .ok acc =>
        let rp := Player.add_xp acc.player acc.award.base_player_xp
        let player_leveled_up := acc.player_leveled_up || rp.2
        let pl3 := Player.add_coins rp.1 acc.award.coins
        match fi_write acc.st acc.budget (fun st => { st with player := some pl3 }) with
        | .error e => .error e
        | .ok sb2 =>
          match first_skill_cycle_id sb2.1.skills mission.skill_ids with
          | .error e => .error (e, sb2.1, sb2.2)
          | .ok cycle_id =>
            let completion : Completion :=
              { id := new_completion_id, mission_id := mission_id, completed_at := now
                award := acc.award, cycle_id := cycle_id }
            match fi_write sb2.1 sb2.2
                (fun st => { st with completions := save_completion st.completions completion }) with
            | .error e => .error e
            | .ok sb3 =>
              .ok ({ state := sb3.1, player := pl3, completion := completion
                     player_leveled_up := player_leveled_up
                     skill_level_ups := acc.skill_level_ups
                     cycle_bonus_applied := acc.cycle_bonus_applied_to.isSome
                     xp_earned := acc.award.base_player_xp
                     coins_earned := acc.award.coins }, sb3.2)

/-- Equality on `Except` results is decidable componentwise (the closed
evaluation theorems compare whole run results). -/
instance {ε α : Type} [DecidableEq ε] [DecidableEq α] : DecidableEq (Except ε α) := fun a b =>
  match a, b with
  | .error x, .error y => decidable_of_iff (x = y) (by simp)
  | .error _, .ok _ => isFalse (fun h => Except.noConfusion h)
  | .ok _, .error _ => isFalse (fun h => Except.noConfusion h)
  | .ok x, .ok y => decidable_of_iff (x = y) (by simp)

/-! ## Concrete scenario fixtures

Closed stores and datetimes the evaluation theorems run on: one weekly skill
whose current cycle is the week of Monday 2024-03-04, probed on the Tuesday
and Wednesday inside the cycle and on the Tuesday after it ends. -/

def t_mon : DateTime := mkDateTime 2024 3 4 0 0

def t_nextMon : DateTime := mkDateTime 2024 3 11 0 0

def t_tue : DateTime := mkDateTime 2024 3 5 10 0

def t_wed : DateTime := mkDateTime 2024 3 6 10 0

def t_afterEnd : DateTime := mkDateTime 2024 3 12 10 0

def skillA : Skill :=
  { id := "s1", name := "Alpha", cycle_start := some t_mon, cycle_end := some t_nextMon }

def skillB : Skill :=
  { id := "s2", name := "Beta", cycle_start := some t_mon, cycle_end := some t_nextMon }

def missionA : Mission := { id := "m1", title := "Solo", skill_ids := ["s1"] }

def missionAB : Mission := { id := "m1", title := "Pair", skill_ids := ["s1", "s2"] }

def pl0 : Player := { id := "p1" }

def stA : State := { skills := [skillA], missions := [missionA] }

def stAB : State := { skills := [skillA, skillB], missions := [missionAB] }

def skillT : Skill :=
  { id := "s1", name := "Tau", level := 3, cycle_start := some t_mon,
    cycle_end := some t_nextMon, target_mission_id := some "m1", missions_count := 8 }

def missionT : Mission := { id := "m1", title := "Hit", skill_ids := ["s1"], difficulty := 2 }

def stT : State := { skills := [skillT], missions := [missionT] }

def skillArch : Skill := { id := "s9", name := "Omega", is_archived := true }

def missionArch : Mission := { id := "m9", title := "Stale", skill_ids := ["s9"] }

def stArch : State := { skills := [skillArch], missions := [missionArch] }

/-- The store the failed fault-injection run leaves behind: the skill already
credited, no player row, no completion record. -/
def stA_afterFail : State := { skills := [{ skillA with xp := 8 }], missions := [missionA] }

/-- The summary of the successful run on `stA` (the fallback branch is dead:
the run succeeds). -/
def outA6 : CMOut :=
  match complete_mission stA "m1" pl0 t_tue 0 "c1" with
  | .ok o => o
  | .error _ =>
    { state := {}, player := pl0,
      completion :=
        { id := "", mission_id := "", completed_at := t_mon,
          award := { base_player_xp := 0, base_skill_xp_map := [], coins := 0 },
          cycle_id := "" },
      player_leveled_up := false, skill_level_ups := [], cycle_bonus_applied := false,
      xp_earned := 0, coins_earned := 0 }

/-! ## Store lemmas -/


theorem get_skill_id_mem {l : List Skill} {sid : String} {s : Skill}
    (h : get_skill l sid = some s) : s.id = sid ∧ s ∈ l := by
  unfold get_skill at h
  exact ⟨by simpa using List.find?_some h, List.mem_of_find?_eq_some h⟩

theorem find?_cons_eq {α : Type} (p : α → Bool) (x : α) (xs : List α) :
    (x :: xs).find? p = if p x then some x else xs.find? p := by
  rw [List.find?_cons]
  cases hp : p x <;> simp [hp]

theorem find?_map_replace (l : List Skill) (t : Skill) (sid : String) (h : ¬ sid = t.id) :
    (l.map (fun s => if s.id == t.id then t else s)).find? (fun s => s.id == sid) =
      l.find? (fun s => s.id == sid) := by
  have hts : (t.id == sid) = false := beq_eq_false_iff_ne.2 (Ne.symm h)
  induction l with
  | nil => rfl
  | cons x xs ih =>
    rw [List.map_cons, find?_cons_eq, find?_cons_eq]
    by_cases hx : x.id = t.id
    · have hxs : (x.id == sid) = false := by
        rw [hx]
        exact hts
      simp only [beq_iff_eq.2 hx, if_true, hts, hxs, if_false, Bool.false_eq_true, ih]
    · have hxt : (x.id == t.id) = false := beq_eq_false_iff_ne.2 hx
      simp only [hxt, Bool.false_eq_true, if_false, ih]

theorem find?_append_none (l : List Skill) (t : Skill) (sid : String) (h : ¬ sid = t.id) :
    (l ++ [t]).find? (fun s => s.id == sid) = l.find? (fun s => s.id == sid) := by
  have hts : (t.id == sid) = false := beq_eq_false_iff_ne.2 (Ne.symm h)
  rw [List.find?_append]
  rw [find?_cons_eq]
  simp only [hts, Bool.false_eq_true, if_false, List.find?_nil, Option.or_none]

theorem find?_self_of_any (l : List Skill) (t : Skill)
    (h : l.any (fun s => s.id == t.id) = true) :
    (l.map (fun s => if s.id == t.id then t else s)).find? (fun s => s.id == t.id) =
      some t := by
  induction l with
  | nil => simp at h
  | cons x xs ih =>
    rw [List.map_cons, find?_cons_eq]
    by_cases hx : x.id = t.id
    · simp only [beq_iff_eq.2 hx, if_true, beq_self_eq_true, if_true]
    · have hxs : xs.any (fun s => s.id == t.id) = true := by
        simpa [hx] using h
      have hxt : (x.id == t.id) = false := beq_eq_false_iff_ne.2 hx
      simp only [hxt, Bool.false_eq_true, if_false, ih hxs]

/-- `save_skill` then `get_skill`: the saved row is returned at its own key,
other keys are untouched. -/
theorem get_skill_save (l : List Skill) (t : Skill) (sid : String) :
    get_skill (save_skill l t) sid = if sid = t.id then some t else get_skill l sid := by
  by_cases hs : sid = t.id
  · subst hs
    rw [if_pos rfl]
    unfold save_skill get_skill
    by_cases h : l.any (fun s => s.id == t.id) = true
    · rw [if_pos h]
      exact find?_self_of_any l t h
    · rw [if_neg h]
      have hnone : l.find? (fun s => s.id == t.id) = none := by
        rw [List.find?_eq_none]
        intro x hx
        simp only [Bool.not_eq_true]
        rw [beq_eq_false_iff_ne]
        intro hh
        exact h (by rw [List.any_eq_true]; exact ⟨x, hx, beq_iff_eq.2 hh⟩)
      rw [List.find?_append, hnone, Option.none_or, find?_cons_eq]
      simp only [beq_self_eq_true, if_true, List.find?_nil]
  · rw [if_neg hs]
    unfold save_skill get_skill
    by_cases h : l.any (fun s => s.id == t.id) = true
    · rw [if_pos h]
      exact find?_map_replace l t sid hs
    · rw [if_neg h]
      exact find?_append_none l t sid hs

/-- All rows of `save_skill l t` carrying the saved row's id are that row. -/
theorem mem_save_self {l : List Skill} {t : Skill} :
    ∀ u ∈ save_skill l t, u.id = t.id → u = t := by
  intro u hu hid
  unfold save_skill at hu
  by_cases h : l.any (fun s => s.id == t.id) = true
  · rw [if_pos h] at hu
    obtain ⟨x, hx, hfx⟩ := List.mem_map.1 hu
    by_cases hxt : x.id = t.id
    · rw [if_pos (beq_iff_eq.2 hxt)] at hfx
      exact hfx.symm
    · rw [if_neg (by simp [hxt])] at hfx
      rw [← hfx] at hid
      exact absurd hid hxt
  · rw [if_neg h] at hu
    rcases List.mem_append.1 hu with hl | hr
    · exact absurd (by rw [List.any_eq_true]; exact ⟨u, hl, beq_iff_eq.2 hid⟩) h
    · simpa using hr

/-- Saving a row with a different id preserves a per-id row property. -/
theorem mem_save_of_ne {l : List Skill} {t : Skill} {sid : String} {s : Skill}
    (hne : ¬ sid = t.id) (hl : ∀ u ∈ l, u.id = sid → u = s) :
    ∀ u ∈ save_skill l t, u.id = sid → u = s := by
  intro u hu hid
  unfold save_skill at hu
  by_cases h : l.any (fun v => v.id == t.id) = true
  · rw [if_pos h] at hu
    obtain ⟨x, hx, hfx⟩ := List.mem_map.1 hu
    by_cases hxt : x.id = t.id
    · rw [if_pos (beq_iff_eq.2 hxt)] at hfx
      rw [← hfx] at hid
      exact absurd hid.symm hne
    · rw [if_neg (by simp [hxt])] at hfx
      rw [← hfx] at hid ⊢
      exact hl x hx hid
  · rw [if_neg h] at hu
    rcases List.mem_append.1 hu with hl' | hr
    · exact hl u hl' hid
    · have hut : u = t := by simpa using hr
      rw [hut] at hid
      exact absurd hid.symm hne

/-! ## Field-preservation lemmas -/

theorem Skill.add_xp_id (s : Skill) (a : Nat) : (s.add_xp a).1.id = s.id := by
  unfold Skill.add_xp
  dsimp only
  split <;> rfl

theorem Skill.add_xp_is_archived (s : Skill) (a : Nat) :
    (s.add_xp a).1.is_archived = s.is_archived := by
  unfold Skill.add_xp
  dsimp only
  split <;> rfl

theorem Skill.add_xp_cycle_type (s : Skill) (a : Nat) :
    (s.add_xp a).1.cycle_type = s.cycle_type := by
  unfold Skill.add_xp
  dsimp only
  split <;> rfl

theorem Skill.add_xp_cycle_start (s : Skill) (a : Nat) :
    (s.add_xp a).1.cycle_start = s.cycle_start := by
  unfold Skill.add_xp
  dsimp only
  split <;> rfl

theorem Skill.add_xp_cycle_end (s : Skill) (a : Nat) :
    (s.add_xp a).1.cycle_end = s.cycle_end := by
  unfold Skill.add_xp
  dsimp only
  split <;> rfl

theorem Skill.add_xp_target (s : Skill) (a : Nat) :
    (s.add_xp a).1.target_mission_id = s.target_mission_id := by
  unfold Skill.add_xp
  dsimp only
  split <;> rfl

theorem mark_target_hit_id (s : Skill) : (mark_target_hit s).id = s.id := rfl

theorem mark_target_hit_is_archived (s : Skill) :
    (mark_target_hit s).is_archived = s.is_archived := rfl

theorem mark_target_hit_cycle_type (s : Skill) :
    (mark_target_hit s).cycle_type = s.cycle_type := rfl

theorem mark_target_hit_cycle_start (s : Skill) :
    (mark_target_hit s).cycle_start = s.cycle_start := rfl

theorem mark_target_hit_cycle_end (s : Skill) :
    (mark_target_hit s).cycle_end = s.cycle_end := rfl

theorem start_new_cycle_id (s : Skill) (ms : List Mission) (t : DateTime) (dsa rng : Nat) :
    (start_new_cycle s ms t dsa rng).id = s.id := by
  unfold start_new_cycle
  dsimp only
  split <;> rfl

theorem start_new_cycle_is_archived (s : Skill) (ms : List Mission) (t : DateTime)
    (dsa rng : Nat) : (start_new_cycle s ms t dsa rng).is_archived = s.is_archived := by
  unfold start_new_cycle
  dsimp only
  split <;> rfl

theorem start_new_cycle_cycle_type (s : Skill) (ms : List Mission) (t : DateTime)
    (dsa rng : Nat) : (start_new_cycle s ms t dsa rng).cycle_type = s.cycle_type := by
  unfold start_new_cycle
  dsimp only
  split <;> rfl

theorem start_new_cycle_cycle_start (s : Skill) (ms : List Mission) (t : DateTime)
    (dsa rng : Nat) : (start_new_cycle s ms t dsa rng).cycle_start =
      some (calculate_cycle_boundaries s.cycle_type t dsa).1 := by
  unfold start_new_cycle
  dsimp only
  split <;> rfl

theorem start_new_cycle_cycle_end (s : Skill) (ms : List Mission) (t : DateTime)
    (dsa rng : Nat) : (start_new_cycle s ms t dsa rng).cycle_end =
      some (calculate_cycle_boundaries s.cycle_type t dsa).2 := by
  unfold start_new_cycle
  dsimp only
  split <;> rfl

theorem start_new_cycle_target (s : Skill) (ms : List Mission) (t : DateTime)
    (dsa rng : Nat) : (start_new_cycle s ms t dsa rng).target_mission_id =
      if 8 ≤ ms.length then select_target_mission ms rng else none := by
  unfold start_new_cycle
  dsimp only
  by_cases h : 8 ≤ ms.length
  · rw [if_pos h, if_pos (by simpa [Skill.is_ready] using h)]
  · rw [if_neg h, if_neg (by simpa [Skill.is_ready] using h)]

theorem start_new_cycle_has_hit (s : Skill) (ms : List Mission) (t : DateTime)
    (dsa rng : Nat) : (start_new_cycle s ms t dsa rng).has_hit_target_this_cycle = false := by
  unfold start_new_cycle
  dsimp only
  split <;> rfl

theorem start_new_cycle_missions_count (s : Skill) (ms : List Mission) (t : DateTime)
    (dsa rng : Nat) : (start_new_cycle s ms t dsa rng).missions_count = ms.length := by
  unfold start_new_cycle
  dsimp only
  split <;> rfl

theorem Player.add_xp_coins (p : Player) (a : Nat) : (p.add_xp a).1.coins = p.coins := by
  unfold Player.add_xp
  dsimp only
  split <;> rfl

theorem Player.add_xp_day (p : Player) (a : Nat) :
    (p.add_xp a).1.day_starts_at = p.day_starts_at := by
  unfold Player.add_xp
  dsimp only
  split <;> rfl

theorem Player.add_coins_day (p : Player) (a : Nat) :
    (p.add_coins a).day_starts_at = p.day_starts_at := rfl

theorem Player.add_coins_coins (p : Player) (a : Nat) :
    (p.add_coins a).coins = p.coins + a := rfl

/-! ## Cycle-update lemmas -/

theorem roll_skill_missions (dsa : Nat) (now : DateTime) (rng : Nat) (st : State)
    (u : Skill) : (roll_skill dsa now rng st u).missions = st.missions := by
  unfold roll_skill
  split <;> rfl

theorem roll_skill_completions (dsa : Nat) (now : DateTime) (rng : Nat) (st : State)
    (u : Skill) : (roll_skill dsa now rng st u).completions = st.completions := by
  unfold roll_skill
  split <;> rfl

theorem foldl_roll_missions (dsa : Nat) (now : DateTime) (rng : Nat) :
    ∀ (l : List Skill) (st : State),
      (l.foldl (roll_skill dsa now rng) st).missions = st.missions
  | [], _ => rfl
  | u :: rest, st => by
    rw [List.foldl_cons, foldl_roll_missions dsa now rng rest _, roll_skill_missions]

theorem foldl_roll_completions (dsa : Nat) (now : DateTime) (rng : Nat) :
    ∀ (l : List Skill) (st : State),
      (l.foldl (roll_skill dsa now rng) st).completions = st.completions
  | [], _ => rfl
  | u :: rest, st => by
    rw [List.foldl_cons, foldl_roll_completions dsa now rng rest _, roll_skill_completions]

theorem update_all_cycles_missions (st : State) (dsa : Nat) (now : DateTime) (rng : Nat) :
    (update_all_cycles st dsa now rng).missions = st.missions :=
  foldl_roll_missions dsa now rng _ st

theorem update_all_cycles_completions (st : State) (dsa : Nat) (now : DateTime)
    (rng : Nat) : (update_all_cycles st dsa now rng).completions = st.completions :=
  foldl_roll_completions dsa now rng _ st

/-- Rolling a skill with a different id leaves a key's lookup and its per-id
row property untouched. -/
theorem roll_skill_step_ne (dsa : Nat) (now : DateTime) (rng : Nat) (st : State)
    (u : Skill) (sid : String) (hu : ¬ u.id = sid) :
    get_skill (roll_skill dsa now rng st u).skills sid = get_skill st.skills sid ∧
      ∀ (w : Skill), (∀ v ∈ st.skills, v.id = sid → v = w) →
        ∀ v ∈ (roll_skill dsa now rng st u).skills, v.id = sid → v = w := by
  unfold roll_skill
  split
  · have hid : (start_new_cycle (finalize_cycle u)
        (get_missions_for_skill st (finalize_cycle u).id) now dsa rng).id = u.id := by
      rw [start_new_cycle_id]
      rfl
    constructor
    · rw [get_skill_save, if_neg (by rw [hid]; exact fun hh => hu hh.symm)]
    · intro w hw
      exact mem_save_of_ne (by rw [hid]; exact fun hh => hu hh.symm) hw
  · exact ⟨rfl, fun w hw => hw⟩

theorem mem_get_skills_sub {l : List Skill} {u : Skill} (h : u ∈ get_skills l false) :
    u ∈ l := by
  unfold get_skills at h
  rw [if_neg (by simp)] at h
  exact (List.mem_filter.1 h).1

theorem mem_get_skills_not_archived {l : List Skill} {u : Skill}
    (h : u ∈ get_skills l false) : u.is_archived = false := by
  unfold get_skills at h
  rw [if_neg (by simp)] at h
  simpa using (List.mem_filter.1 h).2

theorem mem_get_skills_of {l : List Skill} {u : Skill} (hu : u ∈ l)
    (ha : u.is_archived = false) : u ∈ get_skills l false := by
  unfold get_skills
  rw [if_neg (by simp)]
  exact List.mem_filter.2 ⟨hu, by simp [ha]⟩

/-- While no row with the key would roll, the fold of `roll_skill` leaves the
key's row and its per-id property untouched. -/
theorem foldl_roll_preserve (dsa : Nat) (now : DateTime) (rng : Nat) (sid : String)
    (s : Skill) :
    ∀ (l : List Skill) (st : State),
      (∀ u ∈ l, u.id = sid → u = s ∧ should_start_new_cycle s now = false) →
      get_skill st.skills sid = some s →
      (∀ u ∈ st.skills, u.id = sid → u = s) →
      get_skill (l.foldl (roll_skill dsa now rng) st).skills sid = some s ∧
        ∀ u ∈ (l.foldl (roll_skill dsa now rng) st).skills, u.id = sid → u = s
  | [], _, _, h2, h3 => ⟨h2, h3⟩
  | u :: rest, st, h1, h2, h3 => by
    rw [List.foldl_cons]
    by_cases hu : u.id = sid
    · obtain ⟨hus, hns⟩ := h1 u (List.mem_cons_self u rest) hu
      have hstep : roll_skill dsa now rng st u = st := by
        unfold roll_skill
        rw [hus, if_neg (by rw [hns]; simp)]
      rw [hstep]
      exact foldl_roll_preserve dsa now rng sid s rest st
        (fun v hv => h1 v (List.mem_cons_of_mem u hv)) h2 h3
    · obtain ⟨hg, hmem⟩ := roll_skill_step_ne dsa now rng st u sid hu
      exact foldl_roll_preserve dsa now rng sid s rest _
        (fun v hv => h1 v (List.mem_cons_of_mem u hv)) (by rw [hg]; exact h2) (hmem s h3)

/-- `_update_all_cycles` leaves a skill whose cycle is current (and whose key
maps only to it) untouched. -/
theorem update_all_cycles_preserve (st : State) (dsa : Nat) (now : DateTime) (rng : Nat)
    (sid : String) (s : Skill)
    (h2 : get_skill st.skills sid = some s)
    (h3 : ∀ u ∈ st.skills, u.id = sid → u = s)
    (hns : should_start_new_cycle s now = false) :
    get_skill (update_all_cycles st dsa now rng).skills sid = some s ∧
      ∀ u ∈ (update_all_cycles st dsa now rng).skills, u.id = sid → u = s := by
  unfold update_all_cycles
  exact foldl_roll_preserve dsa now rng sid s _ st
    (fun u hu hid => ⟨h3 u (mem_get_skills_sub hu) hid, hns⟩) h2 h3

/-- `_update_all_cycles` never touches an archived skill: only non-archived
rows are listed for rolling. -/
theorem update_all_cycles_preserve_archived (st : State) (dsa : Nat) (now : DateTime)
    (rng : Nat) (sid : String) (s : Skill)
    (h2 : get_skill st.skills sid = some s)
    (h3 : ∀ u ∈ st.skills, u.id = sid → u = s)
    (harch : s.is_archived = true) :
    get_skill (update_all_cycles st dsa now rng).skills sid = some s ∧
      ∀ u ∈ (update_all_cycles st dsa now rng).skills, u.id = sid → u = s := by
  unfold update_all_cycles
  refine foldl_roll_preserve dsa now rng sid s _ st (fun u hu hid => False.elim ?_) h2 h3
  have hus : u = s := h3 u (mem_get_skills_sub hu) hid
  have hf : u.is_archived = false := mem_get_skills_not_archived hu
  rw [hus, harch] at hf
  simp at hf

theorem roll_skill_step_self (dsa : Nat) (now : DateTime) (rng : Nat) (st : State)
    (s : Skill) (sid : String) (M : List Mission)
    (hsid : s.id = sid) (hM : st.missions = M)
    (hroll : should_start_new_cycle s now = true) :
    roll_skill dsa now rng st s =
      { st with skills := save_skill st.skills (start_new_cycle s
          ((get_missions M false).filter (fun mm => mm.skill_ids.contains sid)) now dsa rng) } := by
  unfold roll_skill
  rw [if_pos (by rw [hroll])]
  unfold finalize_cycle get_missions_for_skill
  dsimp only
  rw [hM, hsid]

/-- Once the key's row is the (deterministically) rolled skill, further fold
steps keep it (a duplicate row with the same id re-rolls to the same value,
the missions table being unchanged). -/
theorem foldl_roll_stay (dsa : Nat) (now : DateTime) (rng : Nat) (sid : String)
    (s rolled : Skill) (M : List Mission)
    (hsid : s.id = sid)
    (hroll : should_start_new_cycle s now = true)
    (hdef : rolled = start_new_cycle s
      ((get_missions M false).filter (fun mm => mm.skill_ids.contains sid)) now dsa rng) :
    ∀ (l : List Skill) (st : State),
      (∀ u ∈ l, u.id = sid → u = s) →
      st.missions = M →
      get_skill st.skills sid = some rolled →
      (∀ u ∈ st.skills, u.id = sid → u = rolled) →
      get_skill (l.foldl (roll_skill dsa now rng) st).skills sid = some rolled ∧
        ∀ u ∈ (l.foldl (roll_skill dsa now rng) st).skills, u.id = sid → u = rolled
  | [], _, _, _, h2, h3 => ⟨h2, h3⟩
  | u :: rest, st, h1, hM, h2, h3 => by
    rw [List.foldl_cons]
    by_cases hu : u.id = sid
    · have hus : u = s := h1 u (List.mem_cons_self u rest) hu
      rw [hus, roll_skill_step_self dsa now rng st s sid M hsid hM hroll, ← hdef]
      have hrid : rolled.id = sid := by
        rw [hdef, start_new_cycle_id, hsid]
      refine foldl_roll_stay dsa now rng sid s rolled M hsid hroll hdef rest _
        (fun v hv => h1 v (List.mem_cons_of_mem u hv)) hM ?_ ?_
      · show get_skill (save_skill st.skills rolled) sid = some rolled
        rw [get_skill_save, if_pos hrid.symm]
      · intro v hv hvid
        exact mem_save_self v hv (by rw [hvid, hrid])
    · obtain ⟨hg, hmem⟩ := roll_skill_step_ne dsa now rng st u sid hu
      refine foldl_roll_stay dsa now rng sid s rolled M hsid hroll hdef rest _
        (fun v hv => h1 v (List.mem_cons_of_mem u hv))
        (by rw [roll_skill_missions]; exact hM) (by rw [hg]; exact h2) (hmem rolled h3)

/-- If the key's skill appears in the snapshot and its cycle is stale, the
fold rolls it: afterwards the key maps to the rolled skill. -/
theorem foldl_roll_hit (dsa : Nat) (now : DateTime) (rng : Nat) (sid : String)
    (s rolled : Skill) (M : List Mission)
    (hsid : s.id = sid)
    (hroll : should_start_new_cycle s now = true)
    (hdef : rolled = start_new_cycle s
      ((get_missions M false).filter (fun mm => mm.skill_ids.contains sid)) now dsa rng) :
    ∀ (l : List Skill) (st : State),
      (∀ u ∈ l, u.id = sid → u = s) →
      st.missions = M →
      get_skill st.skills sid = some s →
      (∀ u ∈ st.skills, u.id = sid → u = s) →
      s ∈ l →
      get_skill (l.foldl (roll_skill dsa now rng) st).skills sid = some rolled ∧
        ∀ u ∈ (l.foldl (roll_skill dsa now rng) st).skills, u.id = sid → u = rolled
  | [], _, _, _, _, _, hmem => absurd hmem (List.not_mem_nil s)
  | u :: rest, st, h1, hM, h2, h3, hmem => by
    rw [List.foldl_cons]
    by_cases hu : u.id = sid
    · have hus : u = s := h1 u (List.mem_cons_self u rest) hu
      rw [hus, roll_skill_step_self dsa now rng st s sid M hsid hM hroll, ← hdef]
      have hrid : rolled.id = sid := by
        rw [hdef, start_new_cycle_id, hsid]
      refine foldl_roll_stay dsa now rng sid s rolled M hsid hroll hdef rest _
        (fun v hv => h1 v (List.mem_cons_of_mem u hv)) hM ?_ ?_
      · show get_skill (save_skill st.skills rolled) sid = some rolled
        rw [get_skill_save, if_pos hrid.symm]
      · intro v hv hvid
        exact mem_save_self v hv (by rw [hvid, hrid])
    · have hsrest : s ∈ rest := by
        rcases List.mem_cons.1 hmem with hh | hh
        · exact absurd (by rw [← hh, hsid]) hu
        · exact hh
      obtain ⟨hg, hmemp⟩ := roll_skill_step_ne dsa now rng st u sid hu
      exact foldl_roll_hit dsa now rng sid s rolled M hsid hroll hdef rest _
        (fun v hv => h1 v (List.mem_cons_of_mem u hv))
        (by rw [roll_skill_missions]; exact hM) (by rw [hg]; exact h2) (hmemp s h3) hsrest

/-- `_update_all_cycles` rolls a stale, non-archived skill (whose key maps
only to it): afterwards the key maps to `start_new_cycle` of it, over its
currently assigned non-archived missions. -/
theorem update_all_cycles_roll (st : State) (dsa : Nat) (now : DateTime) (rng : Nat)
    (sid : String) (s : Skill)
    (h2 : get_skill st.skills sid = some s)
    (h3 : ∀ u ∈ st.skills, u.id = sid → u = s)
    (harch : s.is_archived = false)
    (hroll : should_start_new_cycle s now = true) :
    get_skill (update_all_cycles st dsa now rng).skills sid =
      some (start_new_cycle s (get_missions_for_skill st sid) now dsa rng) ∧
      ∀ u ∈ (update_all_cycles st dsa now rng).skills, u.id = sid →
        u = start_new_cycle s (get_missions_for_skill st sid) now dsa rng := by
  have hsid : s.id = sid := (get_skill_id_mem h2).1
  have hmem : s ∈ get_skills st.skills false :=
    mem_get_skills_of (get_skill_id_mem h2).2 harch
  unfold update_all_cycles
  exact foldl_roll_hit dsa now rng sid s _ st.missions hsid hroll rfl _ st
    (fun u hu hid => h3 u (mem_get_skills_sub hu) hid) rfl h2 h3 hmem

/-! ## Per-skill loop lemmas -/

/-- The only exception the per-skill loop body can raise is the
`AttributeError` from a missing `cycle_start`. -/
theorem process_one_skill_err {C : List Completion} {mid : String} {m : Mission}
    {acc : LoopAcc} {sid : String} {e : CMErr}
    (h : process_one_skill C mid m acc sid = .error e) : e = .attributeNoneError := by
  unfold process_one_skill at h
  split at h
  · simp at h
  · split at h
    · simp only [Except.error.injEq] at h
      exact h.symm
    · dsimp only at h
      split at h
      · split at h
        · simp at h
        · simp at h
      · simp at h

theorem process_skills_err {C : List Completion} {mid : String} {m : Mission} :
    ∀ {l : List String} {acc : LoopAcc} {e : CMErr},
      process_skills C mid m l acc = .error e → e = .attributeNoneError := by
  intro l
  induction l with
  | nil => intro acc e h; simp [process_skills] at h
  | cons sid rest ih =>
    intro acc e h
    unfold process_skills at h
    split at h
    · rename_i e1 heq
      simp only [Except.error.injEq] at h
      rw [← h]
      exact process_one_skill_err heq
    · exact ih h

theorem first_skill_cycle_id_err {sk : List Skill} {ids : List String} {e : CMErr}
    (h : first_skill_cycle_id sk ids = .error e) : e = .attributeNoneError := by
  unfold first_skill_cycle_id at h
  split at h
  · simp at h
  · split at h
    · simp at h
    · split at h
      · simp only [Except.error.injEq] at h
        exact h.symm
      · simp at h

theorem process_skills_cons (C : List Completion) (mid : String) (m : Mission)
    (sid : String) (rest : List String) (acc : LoopAcc) :
    process_skills C mid m (sid :: rest) acc =
      match process_one_skill C mid m acc sid with
      | .error e => .error e
      | .ok acc1 => process_skills C mid m rest acc1 := rfl

/-- A skill id that does not resolve is soft-skipped: the loop body returns
its state unchanged. -/
theorem process_one_skill_absent {C : List Completion} {mid : String} {m : Mission}
    {acc : LoopAcc} {sid : String}
    (h : get_skill acc.skills sid = none) :
    process_one_skill C mid m acc sid = .ok acc := by
  unfold process_one_skill
  rw [h]

/-- Soft-skip: a skill id that does not resolve leaves the loop state
untouched and the loop proceeds with the remaining ids. -/
theorem process_skills_skip_cons {C : List Completion} {mid : String} {m : Mission}
    {acc : LoopAcc} {sid : String} {rest : List String}
    (h : get_skill acc.skills sid = none) :
    process_skills C mid m (sid :: rest) acc = process_skills C mid m rest acc := by
  rw [process_skills_cons, process_one_skill_absent h]

/-- The loop body never touches the player's coins, the player's day-start
hour, or the base fields of the award. -/
theorem process_one_skill_frame {C : List Completion} {mid : String} {m : Mission}
    {acc acc1 : LoopAcc} {sid : String}
    (h : process_one_skill C mid m acc sid = .ok acc1) :
    acc1.player.coins = acc.player.coins ∧
      acc1.player.day_starts_at = acc.player.day_starts_at ∧
      acc1.award.base_player_xp = acc.award.base_player_xp ∧
      acc1.award.coins = acc.award.coins ∧
      acc1.award.base_skill_xp_map = acc.award.base_skill_xp_map := by
  unfold process_one_skill at h
  split at h
  · simp only [Except.ok.injEq] at h
    rw [← h]
    exact ⟨rfl, rfl, rfl, rfl, rfl⟩
  · split at h
    · simp at h
    · dsimp only at h
      split at h
      · split at h
        · simp only [Except.ok.injEq] at h
          rw [← h]
          exact ⟨Player.add_xp_coins _ _, Player.add_xp_day _ _, rfl, rfl, rfl⟩
        · simp only [Except.ok.injEq] at h
          rw [← h]
          exact ⟨rfl, rfl, rfl, rfl, rfl⟩
      · simp only [Except.ok.injEq] at h
        rw [← h]
        exact ⟨rfl, rfl, rfl, rfl, rfl⟩

theorem process_skills_frame {C : List Completion} {mid : String} {m : Mission} :
    ∀ {l : List String} {acc acc1 : LoopAcc},
      process_skills C mid m l acc = .ok acc1 →
      acc1.player.coins = acc.player.coins ∧
        acc1.player.day_starts_at = acc.player.day_starts_at ∧
        acc1.award.base_player_xp = acc.award.base_player_xp ∧
        acc1.award.coins = acc.award.coins ∧
        acc1.award.base_skill_xp_map = acc.award.base_skill_xp_map := by
  intro l
  induction l with
  | nil =>
    intro acc acc1 h
    simp only [process_skills, Except.ok.injEq] at h
    rw [← h]
    exact ⟨rfl, rfl, rfl, rfl, rfl⟩
  | cons sid rest ih =>
    intro acc acc1 h
    unfold process_skills at h
    split at h
    · simp at h
    · rename_i accm heq
      obtain ⟨c1, d1, b1, n1, m1⟩ := process_one_skill_frame heq
      obtain ⟨c2, d2, b2, n2, m2⟩ := ih h
      exact ⟨c2.trans c1, d2.trans d1, b2.trans b1, n2.trans n1, m2.trans m1⟩

/-- Loop body evaluation, skip path: the idempotency guard found an existing
completion for this skill's cycle, so the skill is skipped entirely. -/
theorem process_one_skill_guard_skip {C : List Completion} {mid : String} {m : Mission}
    {acc : LoopAcc} {sid : String} {skill : Skill} {cs : DateTime}
    (hs : get_skill acc.skills sid = some skill)
    (hcs : skill.cycle_start = some cs)
    (hg : (get_completions_for_mission_in_cycle C mid
      (create_cycle_id sid cs)).isEmpty = false) :
    process_one_skill C mid m acc sid = .ok acc := by
  unfold process_one_skill
  rw [hs]
  dsimp only
  rw [hcs]
  dsimp only
  rw [if_neg (by rw [hg]; simp)]

/-- Loop body evaluation, credit path: no completion exists for this skill's
cycle, so base skill XP is applied and the target checked. -/
theorem process_one_skill_credit {C : List Completion} {mid : String} {m : Mission}
    {acc : LoopAcc} {sid : String} {skill : Skill} {cs : DateTime}
    (hs : get_skill acc.skills sid = some skill)
    (hcs : skill.cycle_start = some cs)
    (hg : (get_completions_for_mission_in_cycle C mid
      (create_cycle_id sid cs)).isEmpty = true) :
    process_one_skill C mid m acc sid =
      (let r1 := Skill.add_xp skill ((acc.award.base_skill_xp_map.lookup sid).getD 0)
       let ups := if r1.2 then acc.skill_level_ups ++ [r1.1.name] else acc.skill_level_ups
       if is_target_hit r1.1 mid then
         .ok { skills := save_skill acc.skills
                 (mark_target_hit (Skill.add_xp r1.1 (calculate_cycle_bonus m r1.1).2).1)
               player := (Player.add_xp acc.player (calculate_cycle_bonus m r1.1).1).1
               award := { acc.award with cycle_xp_applied_skill_id := some sid }
               cycle_bonus_applied_to := some sid
               skill_level_ups := ups
               player_leveled_up := acc.player_leveled_up ||
                 (Player.add_xp acc.player (calculate_cycle_bonus m r1.1).1).2 }
       else .ok { acc with skills := save_skill acc.skills r1.1, skill_level_ups := ups }) := by
  unfold process_one_skill
  rw [hs]
  dsimp only
  rw [hcs]
  dsimp only
  rw [if_pos (by rw [hg])]

/-- Whatever the loop body does, the skills table is either unchanged or a
single `save_skill` under the processed key. -/
theorem process_one_skill_skills_cases {C : List Completion} {mid : String} {m : Mission}
    {acc acc1 : LoopAcc} {sid : String}
    (h : process_one_skill C mid m acc sid = .ok acc1) :
    acc1.skills = acc.skills ∨
      ∃ t, t.id = sid ∧ t.cycle_start ≠ none ∧ acc1.skills = save_skill acc.skills t := by
  unfold process_one_skill at h
  split at h
  · left
    simp only [Except.ok.injEq] at h
    rw [← h]
  · rename_i skill hskill
    split at h
    · simp at h
    · rename_i cs hcs
      have hid : skill.id = sid := (get_skill_id_mem hskill).1
      dsimp only at h
      split at h
      · split at h
        · right
          simp only [Except.ok.injEq] at h
          refine ⟨_, ?_, ?_, by rw [← h]⟩
          · rw [mark_target_hit_id, Skill.add_xp_id, Skill.add_xp_id, hid]
          · rw [mark_target_hit_cycle_start, Skill.add_xp_cycle_start,
              Skill.add_xp_cycle_start, hcs]
            simp
        · right
          simp only [Except.ok.injEq] at h
          refine ⟨_, ?_, ?_, by rw [← h]⟩
          · rw [Skill.add_xp_id, hid]
          · rw [Skill.add_xp_cycle_start, hcs]
            simp
      · left
        simp only [Except.ok.injEq] at h
        rw [← h]

/-- If every listed skill id (from the tracked set) that resolves has a
present `cycle_start`, the loop succeeds and preserves that property. -/
theorem process_skills_ok_inv (C : List Completion) (mid : String) (m : Mission)
    (P : String → Prop) :
    ∀ (l : List String) (acc : LoopAcc),
      (∀ sid ∈ l, P sid) →
      (∀ sid, P sid → ∀ s, get_skill acc.skills sid = some s → s.cycle_start ≠ none) →
      ∃ acc1, process_skills C mid m l acc = .ok acc1 ∧
        (∀ sid, P sid → ∀ s, get_skill acc1.skills sid = some s → s.cycle_start ≠ none)
  | [], acc, _, hinv => ⟨acc, rfl, hinv⟩
  | sid :: rest, acc, hl, hinv => by
    have hP : P sid := hl sid (List.mem_cons_self sid rest)
    have step : ∃ acc1, process_one_skill C mid m acc sid = .ok acc1 ∧
        (∀ x, P x → ∀ s, get_skill acc1.skills x = some s → s.cycle_start ≠ none) := by
      cases hskill : get_skill acc.skills sid with
      | none => exact ⟨acc, process_one_skill_absent hskill, hinv⟩
      | some skill =>
        obtain ⟨cs, hcs⟩ := Option.ne_none_iff_exists'.1 (hinv sid hP skill hskill)
        cases hg : (get_completions_for_mission_in_cycle C mid
            (create_cycle_id sid cs)).isEmpty with
        | false => exact ⟨acc, process_one_skill_guard_skip hskill hcs hg, hinv⟩
        | true =>
          rw [process_one_skill_credit hskill hcs hg]
          dsimp only
          split
          · refine ⟨_, rfl, ?_⟩
            intro x hPx s hgs
            rw [get_skill_save] at hgs
            split at hgs
            · rw [← Option.some_inj.1 hgs, mark_target_hit_cycle_start,
                Skill.add_xp_cycle_start, Skill.add_xp_cycle_start, hcs]
              simp
            · exact hinv x hPx s hgs
          · refine ⟨_, rfl, ?_⟩
            intro x hPx s hgs
            rw [get_skill_save] at hgs
            split at hgs
            · rw [← Option.some_inj.1 hgs, Skill.add_xp_cycle_start, hcs]
              simp
            · exact hinv x hPx s hgs
    obtain ⟨acc1, hstep, hinv1⟩ := step
    obtain ⟨acc2, hrest, hinv2⟩ := process_skills_ok_inv C mid m P rest acc1
      (fun x hx => hl x (List.mem_cons_of_mem sid hx)) hinv1
    exact ⟨acc2, by rw [process_skills_cons, hstep]; exact hrest, hinv2⟩

/-- A listed skill id resolving to a skill with no `cycle_start` makes the
loop raise the `AttributeError` (nothing catches it). -/
theorem process_skills_bad (C : List Completion) (mid : String) (m : Mission) :
    ∀ (l : List String) (acc : LoopAcc) (sid : String) (s : Skill),
      sid ∈ l →
      get_skill acc.skills sid = some s →
      s.cycle_start = none →
      process_skills C mid m l acc = .error .attributeNoneError
  | [], _, sid, _, hmem, _, _ => absurd hmem (List.not_mem_nil sid)
  | sid1 :: rest, acc, sid, s, hmem, hs, hcs => by
    by_cases heq : sid1 = sid
    · subst heq
      have hbody : process_one_skill C mid m acc sid1 = .error .attributeNoneError := by
        unfold process_one_skill
        rw [hs]
        dsimp only
        rw [hcs]
      rw [process_skills_cons, hbody]
    · cases hres : process_one_skill C mid m acc sid1 with
      | error e =>
        rw [process_skills_cons, hres, process_one_skill_err hres]
      | ok acc1 =>
        have hmem1 : sid ∈ rest := by
          rcases List.mem_cons.1 hmem with hh | hh
          · exact absurd hh.symm heq
          · exact hh
        have hs1 : get_skill acc1.skills sid = some s := by
          rcases process_one_skill_skills_cases hres with hsk | ⟨t, htid, _, hsk⟩
          · rw [hsk]
            exact hs
          · rw [hsk, get_skill_save, if_neg (by rw [htid]; exact fun hh => heq hh.symm)]
            exact hs
        rw [process_skills_cons, hres]
        exact process_skills_bad C mid m rest acc1 sid s hmem1 hs1 hcs

/-- If every listed skill is skipped (unresolvable, or guarded by an existing
completion of its current cycle), the loop returns its state unchanged. -/
theorem process_skills_all_skip (C : List Completion) (mid : String) (m : Mission) :
    ∀ (l : List String) (acc : LoopAcc),
      (∀ sid ∈ l,
        get_skill acc.skills sid = none ∨
          ∃ s cs, get_skill acc.skills sid = some s ∧ s.cycle_start = some cs ∧
            get_completions_for_mission_in_cycle C mid (create_cycle_id sid cs) ≠ []) →
      process_skills C mid m l acc = .ok acc
  | [], _, _ => rfl
  | sid :: rest, acc, hl => by
    have hrest : process_skills C mid m rest acc = .ok acc :=
      process_skills_all_skip C mid m rest acc
        (fun x hx => hl x (List.mem_cons_of_mem sid hx))
    rcases hl sid (List.mem_cons_self sid rest) with hnone | ⟨s, cs, hs, hcs, hg⟩
    · rw [process_skills_skip_cons hnone]
      exact hrest
    · have hg' : (get_completions_for_mission_in_cycle C mid
          (create_cycle_id sid cs)).isEmpty = false := by
        cases hh : (get_completions_for_mission_in_cycle C mid
            (create_cycle_id sid cs)).isEmpty with
        | false => rfl
        | true => exact absurd (List.isEmpty_iff.1 hh) hg
      rw [process_skills_cons, process_one_skill_guard_skip hs hcs hg']
      exact hrest

/-! ## Transaction-stage evaluation lemmas -/

/-- On a found mission, `complete_mission` is the per-skill loop followed by
`finish_completion`, over the store with all stale cycles rolled. -/
theorem complete_mission_eq {st : State} {mid : String} {p : Player} {now : DateTime}
    {rng : Nat} {cid : String} {m : Mission}
    (h_m : get_mission st.missions mid = some m) :
    complete_mission st mid p now rng cid =
      match process_skills (update_all_cycles st p.day_starts_at now rng).completions mid m
          m.skill_ids
          { skills := (update_all_cycles st p.day_starts_at now rng).skills, player := p
            award := calculate_base_awards m, cycle_bonus_applied_to := none
            skill_level_ups := [], player_leveled_up := false } with
      | .error e => .error e
      | .ok acc =>
        finish_completion (update_all_cycles st p.day_starts_at now rng) mid now cid m acc := by
  unfold complete_mission
  rw [h_m]

theorem first_skill_cycle_id_nil (sk : List Skill) :
    first_skill_cycle_id sk [] = .ok "no_skill" := rfl

theorem first_skill_cycle_id_cons_absent {sk : List Skill} {sid : String}
    {rest : List String} (h : get_skill sk sid = none) :
    first_skill_cycle_id sk (sid :: rest) = .ok "no_skill" := by
  unfold first_skill_cycle_id
  rw [List.head?_cons]
  dsimp only
  rw [h]

theorem first_skill_cycle_id_cons_some {sk : List Skill} {sid : String}
    {rest : List String} {t : Skill} {cs : DateTime}
    (h : get_skill sk sid = some t) (hcs : t.cycle_start = some cs) :
    first_skill_cycle_id sk (sid :: rest) = .ok (create_cycle_id sid cs) := by
  unfold first_skill_cycle_id
  rw [List.head?_cons]
  dsimp only
  rw [h]
  dsimp only
  rw [hcs]

/-- `finish_completion`, evaluated once the completion's cycle id is known. -/
theorem finish_completion_eval {st1 : State} {mid : String} {now : DateTime}
    {cid : String} {m : Mission} {acc : LoopAcc} {cyid : String}
    (h : first_skill_cycle_id acc.skills m.skill_ids = .ok cyid) :
    finish_completion st1 mid now cid m acc =
      .ok { state := { st1 with
              skills := acc.skills,
              player := some (Player.add_coins
                (Player.add_xp acc.player acc.award.base_player_xp).1 acc.award.coins),
              completions := st1.completions ++
                [{ id := cid, mission_id := mid, completed_at := now, award := acc.award,
                   cycle_id := cyid }] },
            player := Player.add_coins
              (Player.add_xp acc.player acc.award.base_player_xp).1 acc.award.coins,
            completion := { id := cid, mission_id := mid, completed_at := now,
                            award := acc.award, cycle_id := cyid },
            player_leveled_up := acc.player_leveled_up ||
              (Player.add_xp acc.player acc.award.base_player_xp).2,
            skill_level_ups := acc.skill_level_ups,
            cycle_bonus_applied := acc.cycle_bonus_applied_to.isSome,
            xp_earned := acc.award.base_player_xp,
            coins_earned := acc.award.coins } := by
  unfold finish_completion
  dsimp only
  rw [h]
  rfl

theorem finish_completion_err {st1 : State} {mid : String} {now : DateTime}
    {cid : String} {m : Mission} {acc : LoopAcc} {e : CMErr}
    (h : finish_completion st1 mid now cid m acc = .error e) : e = .attributeNoneError := by
  unfold finish_completion at h
  dsimp only at h
  split at h
  · rename_i e1 heq
    simp only [Except.error.injEq] at h
    rw [← h]
    exact first_skill_cycle_id_err heq
  · simp at h

theorem should_start_eq_false_of_lt {s : Skill} {ce now : DateTime}
    (hce : s.cycle_end = some ce) (hlt : DateTime.lt now ce) :
    should_start_new_cycle s now = false := by
  unfold should_start_new_cycle
  rw [hce, decide_eq_false_iff_not]
  unfold DateTime.le
  unfold DateTime.lt at hlt
  omega

theorem should_start_eq_true_of_le {s : Skill} {ce now : DateTime}
    (hce : s.cycle_end = some ce) (hle : DateTime.le ce now) :
    should_start_new_cycle s now = true := by
  unfold should_start_new_cycle
  rw [hce, decide_eq_true_eq]
  exact hle

/-! ## Cycle-start resolution invariants

"The row under `x` never resolves to a skill without a `cycle_start`" in a
decidable, `Option`-level form, and its preservation through the cycle sweep
and through the per-skill loop over other keys. -/

theorem resolves_with_cycle_start {l : List Skill} {x : String}
    (h : (get_skill l x).map Skill.cycle_start ≠ some none) :
    ∀ u, get_skill l x = some u → u.cycle_start ≠ none := by
  intro u hu hcs
  rw [hu] at h
  exact h (by rw [Option.map_some', hcs])

theorem resolves_with_cycle_start_of {l : List Skill} {x : String}
    (h : ∀ u, get_skill l x = some u → u.cycle_start ≠ none) :
    (get_skill l x).map Skill.cycle_start ≠ some none := by
  cases hg : get_skill l x with
  | none => simp
  | some u =>
    rw [Option.map_some']
    intro hmap
    exact h u hg (Option.some_inj.1 hmap)

theorem foldl_roll_cs_inv (dsa : Nat) (now : DateTime) (rng : Nat) (x : String) :
    ∀ (l : List Skill) (st : State),
      (∀ u, get_skill st.skills x = some u → u.cycle_start ≠ none) →
      ∀ u, get_skill (l.foldl (roll_skill dsa now rng) st).skills x = some u →
        u.cycle_start ≠ none
  | [], _, h => h
  | v :: rest, st, h => by
    rw [List.foldl_cons]
    refine foldl_roll_cs_inv dsa now rng x rest _ ?_
    intro u
    unfold roll_skill
    split
    · dsimp only
      intro hu
      rw [get_skill_save] at hu
      by_cases hx : x = (start_new_cycle (finalize_cycle v)
          (get_missions_for_skill st (finalize_cycle v).id) now dsa rng).id
      · rw [if_pos hx] at hu
        rw [← Option.some_inj.1 hu, start_new_cycle_cycle_start]
        simp
      · rw [if_neg hx] at hu
        exact h u hu
    · exact h u

/-- `_update_all_cycles` preserves "the row under `x` never resolves without a
`cycle_start`": a rolled row always carries fresh boundaries. -/
theorem update_all_cycles_cs_inv (st : State) (dsa : Nat) (now : DateTime) (rng : Nat)
    (x : String)
    (h : (get_skill st.skills x).map Skill.cycle_start ≠ some none) :
    (get_skill (update_all_cycles st dsa now rng).skills x).map Skill.cycle_start ≠
      some none := by
  unfold update_all_cycles
  exact resolves_with_cycle_start_of
    (foldl_roll_cs_inv dsa now rng x _ st (resolves_with_cycle_start h))

/-- The per-skill loop over ids other than `sid` leaves the row under `sid`
and its per-id row property untouched. -/
theorem process_skills_preserve_key {C : List Completion} {mid : String} {m : Mission} :
    ∀ (l : List String) (acc acc1 : LoopAcc) (sid : String),
      sid ∉ l →
      process_skills C mid m l acc = .ok acc1 →
      get_skill acc1.skills sid = get_skill acc.skills sid ∧
        ∀ (w : Skill), (∀ u ∈ acc.skills, u.id = sid → u = w) →
          ∀ u ∈ acc1.skills, u.id = sid → u = w
  | [], acc, acc1, sid, _, h => by
    simp only [process_skills, Except.ok.injEq] at h
    rw [← h]
    exact ⟨rfl, fun w hw => hw⟩
  | sid1 :: rest, acc, acc1, sid, hnot, h => by
    rw [process_skills_cons] at h
    cases hres : process_one_skill C mid m acc sid1 with
    | error e =>
      rw [hres] at h
      exact absurd h (by simp)
    | ok accm =>
      rw [hres] at h
      dsimp only at h
      have hne : ¬ sid1 = sid := fun hh => hnot (hh ▸ List.mem_cons_self sid1 rest)
      have hstep : get_skill accm.skills sid = get_skill acc.skills sid ∧
          ∀ (w : Skill), (∀ u ∈ acc.skills, u.id = sid → u = w) →
            ∀ u ∈ accm.skills, u.id = sid → u = w := by
        rcases process_one_skill_skills_cases hres with hsk | ⟨t, htid, _, hsk⟩
        · rw [hsk]
          exact ⟨rfl, fun w hw => hw⟩
        · constructor
          · rw [hsk, get_skill_save, if_neg (by rw [htid]; exact fun hh => hne hh.symm)]
          · intro w hw
            rw [hsk]
            exact mem_save_of_ne (by rw [htid]; exact fun hh => hne hh.symm) hw
      have hrest : sid ∉ rest := fun hh => hnot (List.mem_cons_of_mem _ hh)
      obtain ⟨g2, m2⟩ := process_skills_preserve_key rest accm acc1 sid hrest h
      exact ⟨g2.trans hstep.1, fun w hw => m2 w (hstep.2 w hw)⟩

/-! ## First-skill transaction runs

One `complete_mission` call, tracked through the row of the mission's FIRST
attached skill; the remaining attached skills may do anything the loop allows
(they must only keep resolving with a `cycle_start`, or not resolve). -/

/-- A call whose first attached skill has a current cycle with no completion
recorded yet: that skill is credited the base skill XP (plus the cycle bonus
on a target hit) exactly once, whatever the remaining skills do, and the
completion record carries the first skill's current cycle id. -/
theorem complete_mission_first_credit
    (st : State) (mid : String) (p : Player) (now : DateTime) (rng : Nat) (cid : String)
    (m : Mission) (sid : String) (rest : List String) (s : Skill) (cs ce : DateTime)
    (h_m : get_mission st.missions mid = some m)
    (h_ids : m.skill_ids = sid :: rest)
    (h_rest : sid ∉ rest)
    (h_s : get_skill st.skills sid = some s)
    (h_all : ∀ u ∈ st.skills, u.id = sid → u = s)
    (h_cs : s.cycle_start = some cs)
    (h_ce : s.cycle_end = some ce)
    (h_lt : DateTime.lt now ce)
    (h_guard : get_completions_for_mission_in_cycle st.completions mid
      (create_cycle_id sid cs) = [])
    (h_tail : ∀ x ∈ rest,
      (get_skill (update_all_cycles st p.day_starts_at now rng).skills x).map
        Skill.cycle_start ≠ some none) :
    ∃ out,
      complete_mission st mid p now rng cid = .ok out ∧
      get_skill out.state.skills sid = some
        (if is_target_hit (Skill.add_xp s m.base_skill_xp).1 mid then
          mark_target_hit
            (Skill.add_xp (Skill.add_xp s m.base_skill_xp).1 m.cycle_skill_xp).1
         else (Skill.add_xp s m.base_skill_xp).1) ∧
      (∀ u ∈ out.state.skills, u.id = sid →
        u = (if is_target_hit (Skill.add_xp s m.base_skill_xp).1 mid then
          mark_target_hit
            (Skill.add_xp (Skill.add_xp s m.base_skill_xp).1 m.cycle_skill_xp).1
         else (Skill.add_xp s m.base_skill_xp).1)) ∧
      out.state.missions = st.missions ∧
      (∃ aw, out.state.completions = st.completions ++
        [{ id := cid, mission_id := mid, completed_at := now, award := aw,
           cycle_id := create_cycle_id sid cs }]) ∧
      out.player.day_starts_at = p.day_starts_at ∧
      (∀ x ∈ rest, (get_skill out.state.skills x).map Skill.cycle_start ≠ some none) := by
  have hsid : s.id = sid := (get_skill_id_mem h_s).1
  have hns := should_start_eq_false_of_lt h_ce h_lt
  obtain ⟨hU, hUall⟩ :=
    update_all_cycles_preserve st p.day_starts_at now rng sid s h_s h_all hns
  have hamt : ((calculate_base_awards m).base_skill_xp_map.lookup sid).getD 0 =
      m.base_skill_xp := by
    unfold calculate_base_awards
    dsimp only
    rw [h_ids]
    simp [List.lookup]
  have hguardE : (get_completions_for_mission_in_cycle
      (update_all_cycles st p.day_starts_at now rng).completions mid
      (create_cycle_id sid cs)).isEmpty = true := by
    rw [update_all_cycles_completions, h_guard]
    rfl
  by_cases hhit : is_target_hit (Skill.add_xp s m.base_skill_xp).1 mid
  · -- target hit: bonus applied to player and skill, target marked
    have hs1id : (mark_target_hit (Skill.add_xp (Skill.add_xp s m.base_skill_xp).1
        m.cycle_skill_xp).1).id = sid := by
      rw [mark_target_hit_id, Skill.add_xp_id, Skill.add_xp_id, hsid]
    have hs1cs : (mark_target_hit (Skill.add_xp (Skill.add_xp s m.base_skill_xp).1
        m.cycle_skill_xp).1).cycle_start = some cs := by
      rw [mark_target_hit_cycle_start, Skill.add_xp_cycle_start, Skill.add_xp_cycle_start,
        h_cs]
    have hstep : process_one_skill
        (update_all_cycles st p.day_starts_at now rng).completions mid m
        { skills := (update_all_cycles st p.day_starts_at now rng).skills, player := p,
          award := calculate_base_awards m, cycle_bonus_applied_to := none,
          skill_level_ups := [], player_leveled_up := false } sid =
        .ok { skills := save_skill (update_all_cycles st p.day_starts_at now rng).skills
                (mark_target_hit (Skill.add_xp (Skill.add_xp s m.base_skill_xp).1
                  m.cycle_skill_xp).1),
              player := (Player.add_xp p m.cycle_player_xp).1,
              award := { calculate_base_awards m with
                cycle_xp_applied_skill_id := some sid },
              cycle_bonus_applied_to := some sid,
              skill_level_ups := if (Skill.add_xp s m.base_skill_xp).2 then
                [] ++ [(Skill.add_xp s m.base_skill_xp).1.name] else [],
              player_leveled_up := false || (Player.add_xp p m.cycle_player_xp).2 } := by
      rw [process_one_skill_credit hU h_cs hguardE]
      dsimp only [calculate_cycle_bonus]
      rw [hamt, if_pos hhit]
    obtain ⟨acc2, hok2, hinv2⟩ := process_skills_ok_inv
      (update_all_cycles st p.day_starts_at now rng).completions mid m
      (fun x => x ∈ rest) rest
      { skills := save_skill (update_all_cycles st p.day_starts_at now rng).skills
          (mark_target_hit (Skill.add_xp (Skill.add_xp s m.base_skill_xp).1
            m.cycle_skill_xp).1),
        player := (Player.add_xp p m.cycle_player_xp).1,
        award := { calculate_base_awards m with cycle_xp_applied_skill_id := some sid },
        cycle_bonus_applied_to := some sid,
        skill_level_ups := if (Skill.add_xp s m.base_skill_xp).2 then
          [] ++ [(Skill.add_xp s m.base_skill_xp).1.name] else [],
        player_leveled_up := false || (Player.add_xp p m.cycle_player_xp).2 }
      (fun _ hx => hx)
      (by
        intro x hx u
        dsimp only
        intro hu
        have hxs : ¬ x = sid := fun hh => h_rest (hh ▸ hx)
        rw [get_skill_save, if_neg (by rw [hs1id]; exact hxs)] at hu
        exact resolves_with_cycle_start (h_tail x hx) u hu)
    have hchain : process_skills
        (update_all_cycles st p.day_starts_at now rng).completions mid m (sid :: rest)
        { skills := (update_all_cycles st p.day_starts_at now rng).skills, player := p,
          award := calculate_base_awards m, cycle_bonus_applied_to := none,
          skill_level_ups := [], player_leveled_up := false } = .ok acc2 := by
      rw [process_skills_cons, hstep]
      exact hok2
    obtain ⟨gk, mk⟩ := process_skills_preserve_key rest _ acc2 sid h_rest hok2
    have hg2 : get_skill acc2.skills sid = some
        (mark_target_hit (Skill.add_xp (Skill.add_xp s m.base_skill_xp).1
          m.cycle_skill_xp).1) := by
      rw [gk]
      show get_skill (save_skill (update_all_cycles st p.day_starts_at now rng).skills
        (mark_target_hit (Skill.add_xp (Skill.add_xp s m.base_skill_xp).1
          m.cycle_skill_xp).1)) sid = _
      rw [get_skill_save, if_pos hs1id.symm]
    have hall2 : ∀ u ∈ acc2.skills, u.id = sid →
        u = mark_target_hit (Skill.add_xp (Skill.add_xp s m.base_skill_xp).1
          m.cycle_skill_xp).1 := by
      refine mk _ ?_
      intro u hu hid
      exact mem_save_self u hu (by rw [hid, hs1id])
    obtain ⟨-, hday2, -, -, -⟩ := process_skills_frame hchain
    have ffsc : first_skill_cycle_id acc2.skills (sid :: rest) =
        .ok (create_cycle_id sid cs) :=
      first_skill_cycle_id_cons_some hg2 hs1cs
    refine
      ⟨{ state :=
           { player := some (Player.add_coins (Player.add_xp acc2.player
               acc2.award.base_player_xp).1 acc2.award.coins),
             skills := acc2.skills,
             missions := (update_all_cycles st p.day_starts_at now rng).missions,
             completions := (update_all_cycles st p.day_starts_at now rng).completions ++
               [{ id := cid, mission_id := mid, completed_at := now,
                  award := acc2.award, cycle_id := create_cycle_id sid cs }] },
         player := Player.add_coins (Player.add_xp acc2.player
           acc2.award.base_player_xp).1 acc2.award.coins,
         completion := { id := cid, mission_id := mid, completed_at := now,
                         award := acc2.award, cycle_id := create_cycle_id sid cs },
         player_leveled_up := acc2.player_leveled_up ||
           (Player.add_xp acc2.player acc2.award.base_player_xp).2,
         skill_level_ups := acc2.skill_level_ups,
         cycle_bonus_applied := acc2.cycle_bonus_applied_to.isSome,
         xp_earned := acc2.award.base_player_xp,
         coins_earned := acc2.award.coins }, ?_, ?_, ?_, ?_, ?_, ?_, ?_⟩
    · rw [complete_mission_eq h_m, h_ids, hchain]
      exact finish_completion_eval (by rw [h_ids]; exact ffsc)
    · rw [if_pos hhit]
      exact hg2
    · rw [if_pos hhit]
      exact hall2
    · exact update_all_cycles_missions st p.day_starts_at now rng
    · refine ⟨acc2.award, ?_⟩
      show (update_all_cycles st p.day_starts_at now rng).completions ++ _ =
        st.completions ++ _
      rw [update_all_cycles_completions]
    · show (Player.add_coins (Player.add_xp acc2.player
        acc2.award.base_player_xp).1 acc2.award.coins).day_starts_at = p.day_starts_at
      rw [Player.add_coins_day, Player.add_xp_day]
      exact hday2
    · intro x hx
      exact resolves_with_cycle_start_of (fun u hu => hinv2 x hx u hu)
  · -- no target hit: base skill XP only
    have hb : is_target_hit (Skill.add_xp s m.base_skill_xp).1 mid = false := by
      simpa using hhit
    have hs1id : (Skill.add_xp s m.base_skill_xp).1.id = sid := by
      rw [Skill.add_xp_id, hsid]
    have hs1cs : (Skill.add_xp s m.base_skill_xp).1.cycle_start = some cs := by
      rw [Skill.add_xp_cycle_start, h_cs]
    have hstep : process_one_skill
        (update_all_cycles st p.day_starts_at now rng).completions mid m
        { skills := (update_all_cycles st p.day_starts_at now rng).skills, player := p,
          award := calculate_base_awards m, cycle_bonus_applied_to := none,
          skill_level_ups := [], player_leveled_up := false } sid =
        .ok { skills := save_skill (update_all_cycles st p.day_starts_at now rng).skills
                (Skill.add_xp s m.base_skill_xp).1,
              player := p,
              award := calculate_base_awards m,
              cycle_bonus_applied_to := none,
              skill_level_ups := if (Skill.add_xp s m.base_skill_xp).2 then
                [] ++ [(Skill.add_xp s m.base_skill_xp).1.name] else [],
              player_leveled_up := false } := by
      rw [process_one_skill_credit hU h_cs hguardE]
      dsimp only [calculate_cycle_bonus]
      rw [hamt, if_neg (by rw [hb]; simp)]
    obtain ⟨acc2, hok2, hinv2⟩ := process_skills_ok_inv
      (update_all_cycles st p.day_starts_at now rng).completions mid m
      (fun x => x ∈ rest) rest
      { skills := save_skill (update_all_cycles st p.day_starts_at now rng).skills
          (Skill.add_xp s m.base_skill_xp).1,
        player := p,
        award := calculate_base_awards m,
        cycle_bonus_applied_to := none,
        skill_level_ups := if (Skill.add_xp s m.base_skill_xp).2 then
          [] ++ [(Skill.add_xp s m.base_skill_xp).1.name] else [],
        player_leveled_up := false }
      (fun _ hx => hx)
      (by
        intro x hx u
        dsimp only
        intro hu
        have hxs : ¬ x = sid := fun hh => h_rest (hh ▸ hx)
        rw [get_skill_save, if_neg (by rw [hs1id]; exact hxs)] at hu
        exact resolves_with_cycle_start (h_tail x hx) u hu)
    have hchain : process_skills
        (update_all_cycles st p.day_starts_at now rng).completions mid m (sid :: rest)
        { skills := (update_all_cycles st p.day_starts_at now rng).skills, player := p,
          award := calculate_base_awards m, cycle_bonus_applied_to := none,
          skill_level_ups := [], player_leveled_up := false } = .ok acc2 := by
      rw [process_skills_cons, hstep]
      exact hok2
    obtain ⟨gk, mk⟩ := process_skills_preserve_key rest _ acc2 sid h_rest hok2
    have hg2 : get_skill acc2.skills sid = some (Skill.add_xp s m.base_skill_xp).1 := by
      rw [gk]
      show get_skill (save_skill (update_all_cycles st p.day_starts_at now rng).skills
        (Skill.add_xp s m.base_skill_xp).1) sid = _
      rw [get_skill_save, if_pos hs1id.symm]
    have hall2 : ∀ u ∈ acc2.skills, u.id = sid →
        u = (Skill.add_xp s m.base_skill_xp).1 := by
      refine mk _ ?_
      intro u hu hid
      exact mem_save_self u hu (by rw [hid, hs1id])
    obtain ⟨-, hday2, -, -, -⟩ := process_skills_frame hchain
    have ffsc : first_skill_cycle_id acc2.skills (sid :: rest) =
        .ok (create_cycle_id sid cs) :=
      first_skill_cycle_id_cons_some hg2 hs1cs
    refine
      ⟨{ state :=
           { player := some (Player.add_coins (Player.add_xp acc2.player
               acc2.award.base_player_xp).1 acc2.award.coins),
             skills := acc2.skills,
             missions := (update_all_cycles st p.day_starts_at now rng).missions,
             completions := (update_all_cycles st p.day_starts_at now rng).completions ++
               [{ id := cid, mission_id := mid, completed_at := now,
                  award := acc2.award, cycle_id := create_cycle_id sid cs }] },
         player := Player.add_coins (Player.add_xp acc2.player
           acc2.award.base_player_xp).1 acc2.award.coins,
         completion := { id := cid, mission_id := mid, completed_at := now,
                         award := acc2.award, cycle_id := create_cycle_id sid cs },
         player_leveled_up := acc2.player_leveled_up ||
           (Player.add_xp acc2.player acc2.award.base_player_xp).2,
         skill_level_ups := acc2.skill_level_ups,
         cycle_bonus_applied := acc2.cycle_bonus_applied_to.isSome,
         xp_earned := acc2.award.base_player_xp,
         coins_earned := acc2.award.coins }, ?_, ?_, ?_, ?_, ?_, ?_, ?_⟩
    · rw [complete_mission_eq h_m, h_ids, hchain]
      exact finish_completion_eval (by rw [h_ids]; exact ffsc)
    · rw [if_neg hhit]
      exact hg2
    · rw [if_neg hhit]
      exact hall2
    · exact update_all_cycles_missions st p.day_starts_at now rng
    · refine ⟨acc2.award, ?_⟩
      show (update_all_cycles st p.day_starts_at now rng).completions ++ _ =
        st.completions ++ _
      rw [update_all_cycles_completions]
    · show (Player.add_coins (Player.add_xp acc2.player
        acc2.award.base_player_xp).1 acc2.award.coins).day_starts_at = p.day_starts_at
      rw [Player.add_coins_day, Player.add_xp_day]
      exact hday2
    · intro x hx
      exact resolves_with_cycle_start_of (fun u hu => hinv2 x hx u hu)

/-- A call whose first attached skill has a current cycle that is already
credited for this mission: the idempotency guard skips that skill entirely
(no skill XP, no target check) whatever the remaining skills do, yet the call
still succeeds and appends another completion record keyed to that same
cycle. -/
theorem complete_mission_first_skip
    (st : State) (mid : String) (p : Player) (now : DateTime) (rng : Nat) (cid : String)
    (m : Mission) (sid : String) (rest : List String) (s : Skill) (cs ce : DateTime)
    (h_m : get_mission st.missions mid = some m)
    (h_ids : m.skill_ids = sid :: rest)
    (h_rest : sid ∉ rest)
    (h_s : get_skill st.skills sid = some s)
    (h_all : ∀ u ∈ st.skills, u.id = sid → u = s)
    (h_cs : s.cycle_start = some cs)
    (h_ce : s.cycle_end = some ce)
    (h_lt : DateTime.lt now ce)
    (h_guard : get_completions_for_mission_in_cycle st.completions mid
      (create_cycle_id sid cs) ≠ [])
    (h_tail : ∀ x ∈ rest,
      (get_skill (update_all_cycles st p.day_starts_at now rng).skills x).map
        Skill.cycle_start ≠ some none) :
    ∃ out,
      complete_mission st mid p now rng cid = .ok out ∧
      get_skill out.state.skills sid = some s ∧
      (∀ u ∈ out.state.skills, u.id = sid → u = s) ∧
      out.state.missions = st.missions ∧
      (∃ aw, out.state.completions = st.completions ++
        [{ id := cid, mission_id := mid, completed_at := now, award := aw,
           cycle_id := create_cycle_id sid cs }]) ∧
      out.player.day_starts_at = p.day_starts_at ∧
      (∀ x ∈ rest, (get_skill out.state.skills x).map Skill.cycle_start ≠ some none) := by
  have hns := should_start_eq_false_of_lt h_ce h_lt
  obtain ⟨hU, hUall⟩ :=
    update_all_cycles_preserve st p.day_starts_at now rng sid s h_s h_all hns
  have hguardF : (get_completions_for_mission_in_cycle
      (update_all_cycles st p.day_starts_at now rng).completions mid
      (create_cycle_id sid cs)).isEmpty = false := by
    rw [update_all_cycles_completions]
    cases hh : (get_completions_for_mission_in_cycle st.completions mid
        (create_cycle_id sid cs)).isEmpty with
    | false => rfl
    | true => exact absurd (List.isEmpty_iff.1 hh) h_guard
  have hstep : process_one_skill
      (update_all_cycles st p.day_starts_at now rng).completions mid m
      { skills := (update_all_cycles st p.day_starts_at now rng).skills, player := p,
        award := calculate_base_awards m, cycle_bonus_applied_to := none,
        skill_level_ups := [], player_leveled_up := false } sid =
      .ok { skills := (update_all_cycles st p.day_starts_at now rng).skills, player := p,
            award := calculate_base_awards m, cycle_bonus_applied_to := none,
            skill_level_ups := [], player_leveled_up := false } :=
    process_one_skill_guard_skip hU h_cs hguardF
  obtain ⟨acc2, hok2, hinv2⟩ := process_skills_ok_inv
    (update_all_cycles st p.day_starts_at now rng).completions mid m
    (fun x => x ∈ rest) rest
    { skills := (update_all_cycles st p.day_starts_at now rng).skills, player := p,
      award := calculate_base_awards m, cycle_bonus_applied_to := none,
      skill_level_ups := [], player_leveled_up := false }
    (fun _ hx => hx)
    (by
      intro x hx u
      dsimp only
      intro hu
      exact resolves_with_cycle_start (h_tail x hx) u hu)
  have hchain : process_skills
      (update_all_cycles st p.day_starts_at now rng).completions mid m (sid :: rest)
      { skills := (update_all_cycles st p.day_starts_at now rng).skills, player := p,
        award := calculate_base_awards m, cycle_bonus_applied_to := none,
        skill_level_ups := [], player_leveled_up := false } = .ok acc2 := by
    rw [process_skills_cons, hstep]
    exact hok2
  obtain ⟨gk, mk⟩ := process_skills_preserve_key rest _ acc2 sid h_rest hok2
  have hg2 : get_skill acc2.skills sid = some s := by
    rw [gk]
    exact hU
  have hall2 : ∀ u ∈ acc2.skills, u.id = sid → u = s :=
    mk s (fun u hu hid => hUall u hu hid)
  obtain ⟨-, hday2, -, -, -⟩ := process_skills_frame hchain
  have ffsc : first_skill_cycle_id acc2.skills (sid :: rest) =
      .ok (create_cycle_id sid cs) :=
    first_skill_cycle_id_cons_some hg2 h_cs
  refine
    ⟨{ state :=
         { player := some (Player.add_coins (Player.add_xp acc2.player
             acc2.award.base_player_xp).1 acc2.award.coins),
           skills := acc2.skills,
           missions := (update_all_cycles st p.day_starts_at now rng).missions,
           completions := (update_all_cycles st p.day_starts_at now rng).completions ++
             [{ id := cid, mission_id := mid, completed_at := now,
                award := acc2.award, cycle_id := create_cycle_id sid cs }] },
       player := Player.add_coins (Player.add_xp acc2.player
         acc2.award.base_player_xp).1 acc2.award.coins,
       completion := { id := cid, mission_id := mid, completed_at := now,
                       award := acc2.award, cycle_id := create_cycle_id sid cs },
       player_leveled_up := acc2.player_leveled_up ||
         (Player.add_xp acc2.player acc2.award.base_player_xp).2,
       skill_level_ups := acc2.skill_level_ups,
       cycle_bonus_applied := acc2.cycle_bonus_applied_to.isSome,
       xp_earned := acc2.award.base_player_xp,
       coins_earned := acc2.award.coins }, ?_, ?_, ?_, ?_, ?_, ?_, ?_⟩
  · rw [complete_mission_eq h_m, h_ids, hchain]
    exact finish_completion_eval (by rw [h_ids]; exact ffsc)
  · exact hg2
  · exact hall2
  · exact update_all_cycles_missions st p.day_starts_at now rng
  · refine ⟨acc2.award, ?_⟩
    show (update_all_cycles st p.day_starts_at now rng).completions ++ _ =
      st.completions ++ _
    rw [update_all_cycles_completions]
  · show (Player.add_coins (Player.add_xp acc2.player
      acc2.award.base_player_xp).1 acc2.award.coins).day_starts_at = p.day_starts_at
    rw [Player.add_coins_day, Player.add_xp_day]
    exact hday2
  · intro x hx
    exact resolves_with_cycle_start_of (fun u hu => hinv2 x hx u hu)

/-- A call whose first attached skill's cycle has expired: the cycle is
rolled first (new boundaries, fresh target), and — no completion existing for
the new cycle — that skill is credited the base skill XP again (the freshly
drawn target assumed to miss this mission), whatever the remaining skills
do. -/
theorem complete_mission_first_roll_credit
    (st : State) (mid : String) (p : Player) (now : DateTime) (rng : Nat) (cid : String)
    (m : Mission) (sid : String) (rest : List String) (s : Skill) (ce : DateTime)
    (h_m : get_mission st.missions mid = some m)
    (h_ids : m.skill_ids = sid :: rest)
    (h_rest : sid ∉ rest)
    (h_s : get_skill st.skills sid = some s)
    (h_all : ∀ u ∈ st.skills, u.id = sid → u = s)
    (h_arch : s.is_archived = false)
    (h_ce : s.cycle_end = some ce)
    (h_ge : DateTime.le ce now)
    (h_guard : get_completions_for_mission_in_cycle st.completions mid
      (create_cycle_id sid
        (calculate_cycle_boundaries s.cycle_type now p.day_starts_at).1) = [])
    (h_miss : 8 ≤ (get_missions_for_skill st sid).length →
      select_target_mission (get_missions_for_skill st sid) rng ≠ some mid)
    (h_tail : ∀ x ∈ rest,
      (get_skill (update_all_cycles st p.day_starts_at now rng).skills x).map
        Skill.cycle_start ≠ some none) :
    ∃ out,
      complete_mission st mid p now rng cid = .ok out ∧
      get_skill out.state.skills sid = some
        (Skill.add_xp (start_new_cycle s (get_missions_for_skill st sid) now
          p.day_starts_at rng) m.base_skill_xp).1 := by
  have hsid : s.id = sid := (get_skill_id_mem h_s).1
  have hroll := should_start_eq_true_of_le h_ce h_ge
  obtain ⟨hU, hUall⟩ :=
    update_all_cycles_roll st p.day_starts_at now rng sid s h_s h_all h_arch hroll
  have hrcs : (start_new_cycle s (get_missions_for_skill st sid) now
      p.day_starts_at rng).cycle_start =
      some (calculate_cycle_boundaries s.cycle_type now p.day_starts_at).1 :=
    start_new_cycle_cycle_start s _ now p.day_starts_at rng
  have hamt : ((calculate_base_awards m).base_skill_xp_map.lookup sid).getD 0 =
      m.base_skill_xp := by
    unfold calculate_base_awards
    dsimp only
    rw [h_ids]
    simp [List.lookup]
  have hguardE : (get_completions_for_mission_in_cycle
      (update_all_cycles st p.day_starts_at now rng).completions mid
      (create_cycle_id sid
        (calculate_cycle_boundaries s.cycle_type now p.day_starts_at).1)).isEmpty =
      true := by
    rw [update_all_cycles_completions, h_guard]
    rfl
  have hhit0 : is_target_hit (Skill.add_xp (start_new_cycle s
      (get_missions_for_skill st sid) now p.day_starts_at rng) m.base_skill_xp).1 mid
      = false := by
    unfold is_target_hit
    rw [Skill.add_xp_target, start_new_cycle_target]
    by_cases h8 : 8 ≤ (get_missions_for_skill st sid).length
    · rw [if_pos h8, beq_eq_false_iff_ne.2 (h_miss h8), Bool.false_and]
    · rw [if_neg h8]
      rfl
  have hS3id : (Skill.add_xp (start_new_cycle s (get_missions_for_skill st sid) now
      p.day_starts_at rng) m.base_skill_xp).1.id = sid := by
    rw [Skill.add_xp_id, start_new_cycle_id, hsid]
  have hS3cs : (Skill.add_xp (start_new_cycle s (get_missions_for_skill st sid) now
      p.day_starts_at rng) m.base_skill_xp).1.cycle_start =
      some (calculate_cycle_boundaries s.cycle_type now p.day_starts_at).1 := by
    rw [Skill.add_xp_cycle_start, hrcs]
  have hstep : process_one_skill
      (update_all_cycles st p.day_starts_at now rng).completions mid m
      { skills := (update_all_cycles st p.day_starts_at now rng).skills, player := p,
        award := calculate_base_awards m, cycle_bonus_applied_to := none,
        skill_level_ups := [], player_leveled_up := false } sid =
      .ok { skills := save_skill (update_all_cycles st p.day_starts_at now rng).skills
              (Skill.add_xp (start_new_cycle s (get_missions_for_skill st sid) now
                p.day_starts_at rng) m.base_skill_xp).1,
            player := p,
            award := calculate_base_awards m,
            cycle_bonus_applied_to := none,
            skill_level_ups := if (Skill.add_xp (start_new_cycle s
                (get_missions_for_skill st sid) now p.day_starts_at rng)
                m.base_skill_xp).2 then
              [] ++ [(Skill.add_xp (start_new_cycle s (get_missions_for_skill st sid)
                now p.day_starts_at rng) m.base_skill_xp).1.name] else [],
            player_leveled_up := false } := by
    rw [process_one_skill_credit hU hrcs hguardE]
    dsimp only [calculate_cycle_bonus]
    rw [hamt, if_neg (by rw [hhit0]; simp)]
  obtain ⟨acc2, hok2, hinv2⟩ := process_skills_ok_inv
    (update_all_cycles st p.day_starts_at now rng).completions mid m
    (fun x => x ∈ rest) rest
    { skills := save_skill (update_all_cycles st p.day_starts_at now rng).skills
        (Skill.add_xp (start_new_cycle s (get_missions_for_skill st sid) now
          p.day_starts_at rng) m.base_skill_xp).1,
      player := p,
      award := calculate_base_awards m,
      cycle_bonus_applied_to := none,
      skill_level_ups := if (Skill.add_xp (start_new_cycle s
          (get_missions_for_skill st sid) now p.day_starts_at rng)
          m.base_skill_xp).2 then
        [] ++ [(Skill.add_xp (start_new_cycle s (get_missions_for_skill st sid)
          now p.day_starts_at rng) m.base_skill_xp).1.name] else [],
      player_leveled_up := false }
    (fun _ hx => hx)
    (by
      intro x hx u
      dsimp only
      intro hu
      have hxs : ¬ x = sid := fun hh => h_rest (hh ▸ hx)
      rw [get_skill_save, if_neg (by rw [hS3id]; exact hxs)] at hu
      exact resolves_with_cycle_start (h_tail x hx) u hu)
  have hchain : process_skills
      (update_all_cycles st p.day_starts_at now rng).completions mid m (sid :: rest)
      { skills := (update_all_cycles st p.day_starts_at now rng).skills, player := p,
        award := calculate_base_awards m, cycle_bonus_applied_to := none,
        skill_level_ups := [], player_leveled_up := false } = .ok acc2 := by
    rw [process_skills_cons, hstep]
    exact hok2
  obtain ⟨gk, mk⟩ := process_skills_preserve_key rest _ acc2 sid h_rest hok2
  have hg2 : get_skill acc2.skills sid = some
      (Skill.add_xp (start_new_cycle s (get_missions_for_skill st sid) now
        p.day_starts_at rng) m.base_skill_xp).1 := by
    rw [gk]
    show get_skill (save_skill (update_all_cycles st p.day_starts_at now rng).skills
      (Skill.add_xp (start_new_cycle s (get_missions_for_skill st sid) now
        p.day_starts_at rng) m.base_skill_xp).1) sid = _
    rw [get_skill_save, if_pos hS3id.symm]
  have ffsc : first_skill_cycle_id acc2.skills (sid :: rest) =
      .ok (create_cycle_id sid
        (calculate_cycle_boundaries s.cycle_type now p.day_starts_at).1) :=
    first_skill_cycle_id_cons_some hg2 hS3cs
  refine
    ⟨{ state :=
         { player := some (Player.add_coins (Player.add_xp acc2.player
             acc2.award.base_player_xp).1 acc2.award.coins),
           skills := acc2.skills,
           missions := (update_all_cycles st p.day_starts_at now rng).missions,
           completions := (update_all_cycles st p.day_starts_at now rng).completions ++
             [{ id := cid, mission_id := mid, completed_at := now,
                award := acc2.award,
                cycle_id := create_cycle_id sid
                  (calculate_cycle_boundaries s.cycle_type now p.day_starts_at).1 }] },
       player := Player.add_coins (Player.add_xp acc2.player
         acc2.award.base_player_xp).1 acc2.award.coins,
       completion := { id := cid, mission_id := mid, completed_at := now,
                       award := acc2.award,
                       cycle_id := create_cycle_id sid
                         (calculate_cycle_boundaries s.cycle_type now
                           p.day_starts_at).1 },
       player_leveled_up := acc2.player_leveled_up ||
         (Player.add_xp acc2.player acc2.award.base_player_xp).2,
       skill_level_ups := acc2.skill_level_ups,
       cycle_bonus_applied := acc2.cycle_bonus_applied_to.isSome,
       xp_earned := acc2.award.base_player_xp,
       coins_earned := acc2.award.coins }, ?_, ?_⟩
  · rw [complete_mission_eq h_m, h_ids, hchain]
    exact finish_completion_eval (by rw [h_ids]; exact ffsc)
  · exact hg2

/-- Chaining lemma: the guard query over a store with one more completion for
a different cycle id is unchanged. -/
theorem guard_append_other {C : List Completion} {mid cyid : String} {c : Completion}
    (hmatch : (c.mission_id == mid && c.cycle_id == cyid) = false) :
    get_completions_for_mission_in_cycle (C ++ [c]) mid cyid =
      get_completions_for_mission_in_cycle C mid cyid := by
  unfold get_completions_for_mission_in_cycle
  rw [List.filter_append]
  simp [hmatch]

/-- Claim C1 (amended): for every mission and its FIRST attached skill s (the
completion record is keyed to the first attached skill's cycle alone, so only
that skill is protected), completing twice while s's cycle is unchanged
applies the base skill XP to s on the first call only — the second call skips
s entirely, with no target check — and after s's cycle rolls over a third
call credits s again on top of the freshly rolled cycle; the remaining
attached skills are arbitrary (they need only keep resolving with a
`cycle_start`, or not resolve). -/
theorem C1_one_credit_per_skill_cycle
    (st : State) (mid : String) (p : Player)
    (now1 now2 now3 : DateTime) (r1 r2 r3 : Nat) (cid1 cid2 cid3 : String)
    (m : Mission) (sid : String) (rest : List String) (s : Skill) (cs ce : DateTime)
    (h_m : get_mission st.missions mid = some m)
    (h_ids : m.skill_ids = sid :: rest)
    (h_rest : sid ∉ rest)
    (h_s : get_skill st.skills sid = some s)
    (h_all : ∀ u ∈ st.skills, u.id = sid → u = s)
    (h_arch : s.is_archived = false)
    (h_cs : s.cycle_start = some cs)
    (h_ce : s.cycle_end = some ce)
    (h_lt1 : DateTime.lt now1 ce)
    (h_lt2 : DateTime.lt now2 ce)
    (h_guard : get_completions_for_mission_in_cycle st.completions mid
      (create_cycle_id sid cs) = [])
    (h_ge3 : DateTime.le ce now3)
    (h_new : create_cycle_id sid
      (calculate_cycle_boundaries s.cycle_type now3 p.day_starts_at).1 ≠
      create_cycle_id sid cs)
    (h_guard3 : get_completions_for_mission_in_cycle st.completions mid
      (create_cycle_id sid
        (calculate_cycle_boundaries s.cycle_type now3 p.day_starts_at).1) = [])
    (h_miss3 : 8 ≤ (get_missions_for_skill st sid).length →
      select_target_mission (get_missions_for_skill st sid) r3 ≠ some mid)
    (h_tail : ∀ x ∈ rest,
      (get_skill (update_all_cycles st p.day_starts_at now1 r1).skills x).map
        Skill.cycle_start ≠ some none) :
    ∃ out1 out2 out3,
      complete_mission st mid p now1 r1 cid1 = .ok out1 ∧
      get_skill out1.state.skills sid = some
        (if is_target_hit (Skill.add_xp s m.base_skill_xp).1 mid then
          mark_target_hit
            (Skill.add_xp (Skill.add_xp s m.base_skill_xp).1 m.cycle_skill_xp).1
         else (Skill.add_xp s m.base_skill_xp).1) ∧
      complete_mission out1.state mid out1.player now2 r2 cid2 = .ok out2 ∧
      get_skill out2.state.skills sid = get_skill out1.state.skills sid ∧
      complete_mission out2.state mid out2.player now3 r3 cid3 = .ok out3 ∧
      get_skill out3.state.skills sid = some
        (Skill.add_xp (start_new_cycle
          (if is_target_hit (Skill.add_xp s m.base_skill_xp).1 mid then
            mark_target_hit
              (Skill.add_xp (Skill.add_xp s m.base_skill_xp).1 m.cycle_skill_xp).1
           else (Skill.add_xp s m.base_skill_xp).1)
          (get_missions_for_skill st sid) now3 p.day_starts_at r3)
          m.base_skill_xp).1 := by
  obtain ⟨out1, e1, g1, a1, mi1, ⟨aw1, c1⟩, d1, t1⟩ :=
    complete_mission_first_credit st mid p now1 r1 cid1 m sid rest s cs ce
      h_m h_ids h_rest h_s h_all h_cs h_ce h_lt1 h_guard h_tail
  have hS1cs : (if is_target_hit (Skill.add_xp s m.base_skill_xp).1 mid then
      mark_target_hit
        (Skill.add_xp (Skill.add_xp s m.base_skill_xp).1 m.cycle_skill_xp).1
     else (Skill.add_xp s m.base_skill_xp).1).cycle_start = some cs := by
    by_cases hh : is_target_hit (Skill.add_xp s m.base_skill_xp).1 mid
    · rw [if_pos hh, mark_target_hit_cycle_start, Skill.add_xp_cycle_start,
        Skill.add_xp_cycle_start, h_cs]
    · rw [if_neg hh, Skill.add_xp_cycle_start, h_cs]
  have hS1ce : (if is_target_hit (Skill.add_xp s m.base_skill_xp).1 mid then
      mark_target_hit
        (Skill.add_xp (Skill.add_xp s m.base_skill_xp).1 m.cycle_skill_xp).1
     else (Skill.add_xp s m.base_skill_xp).1).cycle_end = some ce := by
    by_cases hh : is_target_hit (Skill.add_xp s m.base_skill_xp).1 mid
    · rw [if_pos hh, mark_target_hit_cycle_end, Skill.add_xp_cycle_end,
        Skill.add_xp_cycle_end, h_ce]
    · rw [if_neg hh, Skill.add_xp_cycle_end, h_ce]
  have hS1arch : (if is_target_hit (Skill.add_xp s m.base_skill_xp).1 mid then
      mark_target_hit
        (Skill.add_xp (Skill.add_xp s m.base_skill_xp).1 m.cycle_skill_xp).1
     else (Skill.add_xp s m.base_skill_xp).1).is_archived = false := by
    by_cases hh : is_target_hit (Skill.add_xp s m.base_skill_xp).1 mid
    · rw [if_pos hh, mark_target_hit_is_archived, Skill.add_xp_is_archived,
        Skill.add_xp_is_archived, h_arch]
    · rw [if_neg hh, Skill.add_xp_is_archived, h_arch]
  have hS1type : (if is_target_hit (Skill.add_xp s m.base_skill_xp).1 mid then
      mark_target_hit
        (Skill.add_xp (Skill.add_xp s m.base_skill_xp).1 m.cycle_skill_xp).1
     else (Skill.add_xp s m.base_skill_xp).1).cycle_type = s.cycle_type := by
    by_cases hh : is_target_hit (Skill.add_xp s m.base_skill_xp).1 mid
    · rw [if_pos hh, mark_target_hit_cycle_type, Skill.add_xp_cycle_type,
        Skill.add_xp_cycle_type]
    · rw [if_neg hh, Skill.add_xp_cycle_type]
  have h_m2 : get_mission out1.state.missions mid = some m := by
    rw [mi1]
    exact h_m
  have guard2 : get_completions_for_mission_in_cycle out1.state.completions mid
      (create_cycle_id sid cs) ≠ [] := by
    rw [c1]
    unfold get_completions_for_mission_in_cycle at h_guard ⊢
    rw [List.filter_append, h_guard]
    simp
  have t1' : ∀ x ∈ rest,
      (get_skill (update_all_cycles out1.state out1.player.day_starts_at
        now2 r2).skills x).map Skill.cycle_start ≠ some none :=
    fun x hx => update_all_cycles_cs_inv out1.state out1.player.day_starts_at now2 r2 x
      (t1 x hx)
  obtain ⟨out2, e2, g2, a2, mi2, ⟨aw2, c2⟩, d2, t2⟩ :=
    complete_mission_first_skip out1.state mid out1.player now2 r2 cid2 m sid rest _ cs ce
      h_m2 h_ids h_rest g1 a1 hS1cs hS1ce h_lt2 guard2 t1'
  have hday : out2.player.day_starts_at = p.day_starts_at := d2.trans d1
  have h_m3 : get_mission out2.state.missions mid = some m := by
    rw [mi2, mi1]
    exact h_m
  have hmfs : get_missions_for_skill out2.state sid = get_missions_for_skill st sid := by
    unfold get_missions_for_skill
    rw [mi2, mi1]
  have hid_ne : ((create_cycle_id sid cs ==
      create_cycle_id sid
        (calculate_cycle_boundaries s.cycle_type now3 p.day_starts_at).1)) = false :=
    beq_eq_false_iff_ne.2 (Ne.symm h_new)
  have guard3 : get_completions_for_mission_in_cycle out2.state.completions mid
      (create_cycle_id sid
        (calculate_cycle_boundaries
          (if is_target_hit (Skill.add_xp s m.base_skill_xp).1 mid then
            mark_target_hit
              (Skill.add_xp (Skill.add_xp s m.base_skill_xp).1 m.cycle_skill_xp).1
           else (Skill.add_xp s m.base_skill_xp).1).cycle_type now3
          out2.player.day_starts_at).1) = [] := by
    rw [hS1type, hday, c2, c1, guard_append_other (by simp [hid_ne]),
      guard_append_other (by simp [hid_ne])]
    exact h_guard3
  have t2' : ∀ x ∈ rest,
      (get_skill (update_all_cycles out2.state out2.player.day_starts_at
        now3 r3).skills x).map Skill.cycle_start ≠ some none :=
    fun x hx => update_all_cycles_cs_inv out2.state out2.player.day_starts_at now3 r3 x
      (t2 x hx)
  obtain ⟨out3, e3, g3⟩ :=
    complete_mission_first_roll_credit out2.state mid out2.player now3 r3 cid3 m sid rest
      _ ce h_m3 h_ids h_rest g2 a2 hS1arch hS1ce h_ge3 guard3
      (by rw [hmfs]; exact h_miss3) t2'
  rw [hmfs, hday] at g3
  exact ⟨out1, out2, out3, e1, g1, e2, (by rw [g2, g1]), e3, g3⟩

/-- On a found mission, the only exception `complete_mission` can raise is
the `AttributeError` from a missing `cycle_start`. -/
theorem complete_mission_error_shape {st : State} {mid : String} {p : Player}
    {now : DateTime} {rng : Nat} {cid : String} {m : Mission} {e : CMErr}
    (hm : get_mission st.missions mid = some m)
    (h : complete_mission st mid p now rng cid = .error e) : e = .attributeNoneError := by
  rw [complete_mission_eq hm] at h
  split at h
  · rename_i e1 heq
    simp only [Except.error.injEq] at h
    rw [← h]
    exact process_skills_err heq
  · exact finish_completion_err h

/-- Claim C9: `complete_mission` aborts up front with the descriptive
missing-mission error exactly when the mission id does not resolve — on a
found mission no `missionNotFound` error can arise — while an attached skill
id that does not resolve during the loop is soft-skipped: the loop body
returns its state unchanged and the transaction proceeds. -/
theorem C9_missing_mission_aborts (st : State) (mid : String) (p : Player)
    (now : DateTime) (rng : Nat) (cid : String) :
    (get_mission st.missions mid = none →
      complete_mission st mid p now rng cid = .error (.missionNotFound mid)) ∧
    ((∃ j, complete_mission st mid p now rng cid = .error (.missionNotFound j)) ↔
      get_mission st.missions mid = none) ∧
    (∀ (C : List Completion) (m : Mission) (acc : LoopAcc) (sid : String),
      get_skill acc.skills sid = none →
      process_one_skill C mid m acc sid = .ok acc) := by
  have habort : get_mission st.missions mid = none →
      complete_mission st mid p now rng cid = .error (.missionNotFound mid) := by
    intro h
    unfold complete_mission
    rw [h]
  refine ⟨habort, ⟨?_, fun h => ⟨mid, habort h⟩⟩,
    fun C m acc sid h => process_one_skill_absent h⟩
  rintro ⟨j, hj⟩
  cases hm : get_mission st.missions mid with
  | none => rfl
  | some m =>
    have hshape := complete_mission_error_shape hm hj
    simp at hshape

/-- Claim C6: every successful `complete_mission` call reports and grants the
base player XP (4 × difficulty) and coins (2 × difficulty) unconditionally:
the returned player is the post-loop player (same coins and day-start hour as
the caller's) put through `add_xp` with the base player XP and `add_coins`
with the coins reward — and when every attached skill is skipped by the
per-cycle idempotency guard (or fails to resolve), the returned player is
exactly the caller's player with the base XP and coins applied, so a repeat
completion inside the same cycle grants them again. -/
theorem C6_unconditional_player_award (st : State) (mid : String) (p : Player)
    (now : DateTime) (rng : Nat) (cid : String) (m : Mission)
    (h_m : get_mission st.missions mid = some m) (out : CMOut)
    (hout : complete_mission st mid p now rng cid = .ok out) :
    out.xp_earned = m.base_player_xp ∧
    out.coins_earned = m.coins_reward ∧
    out.player.coins = p.coins + m.coins_reward ∧
    out.player.day_starts_at = p.day_starts_at ∧
    (∃ q : Player, q.coins = p.coins ∧ q.day_starts_at = p.day_starts_at ∧
      out.player = Player.add_coins (Player.add_xp q m.base_player_xp).1
        m.coins_reward) ∧
    ((∀ x ∈ m.skill_ids,
        get_skill (update_all_cycles st p.day_starts_at now rng).skills x = none ∨
        ∃ u cs, get_skill (update_all_cycles st p.day_starts_at now rng).skills x =
            some u ∧
          u.cycle_start = some cs ∧
          get_completions_for_mission_in_cycle
            (update_all_cycles st p.day_starts_at now rng).completions mid
            (create_cycle_id x cs) ≠ []) →
      out.player = Player.add_coins (Player.add_xp p m.base_player_xp).1
        m.coins_reward) := by
  rw [complete_mission_eq h_m] at hout
  split at hout
  · exact absurd hout (by simp)
  · rename_i acc heq
    cases hcy : first_skill_cycle_id acc.skills m.skill_ids with
    | error e =>
      unfold finish_completion at hout
      dsimp only at hout
      rw [hcy] at hout
      exact absurd hout (by simp)
    | ok cyid =>
      rw [finish_completion_eval hcy] at hout
      simp only [Except.ok.injEq] at hout
      obtain ⟨cf, df, bf, nf, mf⟩ := process_skills_frame heq
      refine ⟨?_, ?_, ?_, ?_, ?_, ?_⟩
      · rw [← hout]
        dsimp only
        rw [bf]
        rfl
      · rw [← hout]
        dsimp only
        rw [nf]
        rfl
      · rw [← hout]
        dsimp only
        rw [Player.add_coins_coins, Player.add_xp_coins, cf, nf]
        rfl
      · rw [← hout]
        dsimp only
        rw [Player.add_coins_day, Player.add_xp_day, df]
      · refine ⟨acc.player, cf, df, ?_⟩
        rw [← hout]
        dsimp only
        rw [bf, nf]
        rfl
      · intro hskip
        have hallskip := process_skills_all_skip
          (update_all_cycles st p.day_starts_at now rng).completions mid m m.skill_ids
          { skills := (update_all_cycles st p.day_starts_at now rng).skills, player := p,
            award := calculate_base_awards m, cycle_bonus_applied_to := none,
            skill_level_ups := [], player_leveled_up := false }
          (fun x hx => hskip x hx)
        rw [heq] at hallskip
        simp only [Except.ok.injEq] at hallskip
        rw [← hout]
        dsimp only
        rw [hallskip]
        rfl

/-- Claim C10: with every attached skill id either unresolvable or carrying a
`cycle_start` after the cycle sweep, `complete_mission` completes without
raising; but an attached skill id resolving to a skill whose `cycle_start` is
`none` — reachable precisely because `get_skill` also returns archived skills
while `_update_all_cycles` only rolls non-archived ones — makes the call
raise the uncaught `AttributeError` from `create_cycle_id` instead of
soft-skipping the skill. -/
theorem C10_missing_cycle_start_raises (st : State) (mid : String) (p : Player)
    (now : DateTime) (rng : Nat) (cid : String) (m : Mission)
    (h_m : get_mission st.missions mid = some m) :
    ((∀ sid ∈ m.skill_ids, ∀ s,
        get_skill (update_all_cycles st p.day_starts_at now rng).skills sid = some s →
        s.cycle_start ≠ none) →
      ∀ e, complete_mission st mid p now rng cid ≠ .error e) ∧
    (∀ sid s, sid ∈ m.skill_ids → get_skill st.skills sid = some s →
      (∀ u ∈ st.skills, u.id = sid → u = s) →
      s.is_archived = true → s.cycle_start = none →
      complete_mission st mid p now rng cid = .error .attributeNoneError) := by
  constructor
  · intro hinv e hcontra
    obtain ⟨acc1, hok, hinv1⟩ := process_skills_ok_inv
      (update_all_cycles st p.day_starts_at now rng).completions mid m
      (fun sid => sid ∈ m.skill_ids) m.skill_ids
      { skills := (update_all_cycles st p.day_starts_at now rng).skills, player := p,
        award := calculate_base_awards m, cycle_bonus_applied_to := none,
        skill_level_ups := [], player_leveled_up := false }
      (fun _ hx => hx) (fun sid hP s hs => hinv sid hP s hs)
    rw [complete_mission_eq h_m, hok] at hcontra
    dsimp only at hcontra
    have hfs : ∃ cyid, first_skill_cycle_id acc1.skills m.skill_ids = .ok cyid := by
      cases hids : m.skill_ids with
      | nil => exact ⟨"no_skill", first_skill_cycle_id_nil _⟩
      | cons sid0 rest =>
        cases hs0 : get_skill acc1.skills sid0 with
        | none => exact ⟨"no_skill", first_skill_cycle_id_cons_absent hs0⟩
        | some t =>
          have hne := hinv1 sid0 (by rw [hids]; exact List.mem_cons_self _ _) t hs0
          cases hcs : t.cycle_start with
          | none => exact absurd hcs hne
          | some cs =>
            exact ⟨create_cycle_id sid0 cs, first_skill_cycle_id_cons_some hs0 hcs⟩
    obtain ⟨cyid, hcy⟩ := hfs
    rw [finish_completion_eval hcy] at hcontra
    exact absurd hcontra (by simp)
  · intro sid s hmem hs hall harch hcs
    obtain ⟨hs1, _⟩ :=
      update_all_cycles_preserve_archived st p.day_starts_at now rng sid s hs hall harch
    have hbad := process_skills_bad (update_all_cycles st p.day_starts_at now rng).completions
      mid m m.skill_ids
      { skills := (update_all_cycles st p.day_starts_at now rng).skills, player := p,
        award := calculate_base_awards m, cycle_bonus_applied_to := none,
        skill_level_ups := [], player_leveled_up := false }
      sid s hmem hs1 hcs
    rw [complete_mission_eq h_m, hbad]

/-- Counterexample to Claim C1 as stated (every attached skill protected): on
a mission attached to two skills, the completion record carries only the
first skill's cycle id, so a second `complete_mission` call within the same
unchanged cycle credits the second skill again — its XP goes 8 then 16 —
while both calls happen strictly inside the cycle of both skills. -/
theorem C1_second_skill_double_credit :
    (complete_mission stAB "m1" pl0 t_tue 0 "c1").map (fun o1 =>
        ((get_skill o1.state.skills "s2").map Skill.xp,
         (complete_mission o1.state "m1" o1.player t_wed 0 "c2").map (fun o2 =>
           ((get_skill o2.state.skills "s1").map Skill.xp,
            (get_skill o2.state.skills "s2").map Skill.xp)))) =
      .ok (some 8, .ok (some 8, some 16)) ∧
    DateTime.lt t_tue t_nextMon ∧ DateTime.lt t_wed t_nextMon ∧
    skillB.cycle_start = some t_mon ∧ skillB.cycle_end = some t_nextMon ∧
    missionAB.skill_ids = ["s1", "s2"] := by
  decide

/-- Claim C1 witness: the amended statement at the concrete two-skill store —
one mission attached to the weekly skills s1 (first) and s2, completions on
the Tuesday and Wednesday inside the cycle and on the Tuesday after it
ends. -/
theorem C1_one_credit_per_skill_cycle_witness :
    ∃ out1 out2 out3,
      complete_mission stAB "m1" pl0 t_tue 0 "c1" = .ok out1 ∧
      get_skill out1.state.skills "s1" = some
        (if is_target_hit (Skill.add_xp skillA missionAB.base_skill_xp).1 "m1" then
          mark_target_hit
            (Skill.add_xp (Skill.add_xp skillA missionAB.base_skill_xp).1
              missionAB.cycle_skill_xp).1
         else (Skill.add_xp skillA missionAB.base_skill_xp).1) ∧
      complete_mission out1.state "m1" out1.player t_wed 0 "c2" = .ok out2 ∧
      get_skill out2.state.skills "s1" = get_skill out1.state.skills "s1" ∧
      complete_mission out2.state "m1" out2.player t_afterEnd 0 "c3" = .ok out3 ∧
      get_skill out3.state.skills "s1" = some
        (Skill.add_xp (start_new_cycle
          (if is_target_hit (Skill.add_xp skillA missionAB.base_skill_xp).1 "m1" then
            mark_target_hit
              (Skill.add_xp (Skill.add_xp skillA missionAB.base_skill_xp).1
                missionAB.cycle_skill_xp).1
           else (Skill.add_xp skillA missionAB.base_skill_xp).1)
          (get_missions_for_skill stAB "s1") t_afterEnd pl0.day_starts_at 0)
          missionAB.base_skill_xp).1 :=
  C1_one_credit_per_skill_cycle stAB "m1" pl0 t_tue t_wed t_afterEnd 0 0 0 "c1" "c2" "c3"
    missionAB "s1" ["s2"] skillA t_mon t_nextMon (by decide) (by decide) (by decide)
    (by decide) (by decide) (by decide) (by decide) (by decide) (by decide) (by decide)
    (by decide) (by decide) (by decide) (by decide) (by decide) (by decide)

/-- Claim C6 witness: the unconditional award law at the concrete
single-skill store. -/
theorem C6_unconditional_player_award_witness :
    outA6.xp_earned = missionA.base_player_xp ∧
    outA6.coins_earned = missionA.coins_reward ∧
    outA6.player.coins = pl0.coins + missionA.coins_reward ∧
    outA6.player.day_starts_at = pl0.day_starts_at ∧
    (∃ q : Player, q.coins = pl0.coins ∧ q.day_starts_at = pl0.day_starts_at ∧
      outA6.player = Player.add_coins (Player.add_xp q missionA.base_player_xp).1
        missionA.coins_reward) ∧
    ((∀ x ∈ missionA.skill_ids,
        get_skill (update_all_cycles stA pl0.day_starts_at t_tue 0).skills x = none ∨
        ∃ u cs, get_skill (update_all_cycles stA pl0.day_starts_at t_tue 0).skills x =
            some u ∧
          u.cycle_start = some cs ∧
          get_completions_for_mission_in_cycle
            (update_all_cycles stA pl0.day_starts_at t_tue 0).completions "m1"
            (create_cycle_id x cs) ≠ []) →
      outA6.player = Player.add_coins (Player.add_xp pl0 missionA.base_player_xp).1
        missionA.coins_reward) :=
  C6_unconditional_player_award stA "m1" pl0 t_tue 0 "c1" missionA (by decide) outA6
    (by decide)

/-- Claim C10 witness: the archived skill with no cycle, attached to its
mission, makes the call raise the `AttributeError`. -/
theorem C10_missing_cycle_start_raises_witness :
    complete_mission stArch "m9" pl0 t_tue 0 "c1" = .error .attributeNoneError :=
  (C10_missing_cycle_start_raises stArch "m9" pl0 t_tue 0 "c1" missionArch (by decide)).2
    "s9" skillArch (by decide) (by decide) (by decide) (by decide) (by decide)

/-- Counterexample to Claim C2 as stated (`while` semantics): one award of
500 XP from level 1 leaves the player at level 2 with 380 XP, yet the level-2
requirement is 340 — the `if` stepped a single level and did not restore
`xp < requirement(new level)`. -/
theorem C2_multi_level_award_overflow :
    (Player.add_xp pl0 500).1.level = 2 ∧
    (Player.add_xp pl0 500).1.xp = 380 ∧
    Player.xp_for_next_level (Player.add_xp pl0 500).1 = 340 ∧
    ¬ (Player.add_xp pl0 500).1.xp < Player.xp_for_next_level (Player.add_xp pl0 500).1 := by
  decide

/-- Claim C3: refuted. Each storage call commits on its own (`storage.py`
methods each end in `conn.commit()`, and `complete_mission` opens no
transaction), so a store that fails on the transaction's second write — the
player save — leaves the first write committed: the skill sits credited with
its 8 base XP while no completion record and no player row were written, the
very partial state the specification's all-or-nothing requirement rules out. -/
theorem C3_partial_commit_on_failure :
    complete_mission_fi stA 1 "m1" pl0 t_tue 0 "c1" =
      .error (.storeWriteFailed, stA_afterFail, 0) ∧
    (get_skill stA_afterFail.skills "s1").map Skill.xp =
      some (skillA.xp + missionA.base_skill_xp) ∧
    stA_afterFail.completions = [] ∧
    stA_afterFail.player = none ∧
    (get_skill stA.skills "s1").map Skill.xp = some 0 := by
  decide

/-- Counterexample to Claim C4 as stated: for a reference time at 02:00 with
`day_starts_at = 5`, daily boundaries start at 05:00 of the SAME day — not of
the previous day — so the returned half-open interval lies entirely after the
reference time and does not contain it. -/
theorem C4_early_hour_not_contained :
    calculate_cycle_boundaries .daily (mkDateTime 2024 3 6 2 0) 5 =
      (mkDateTime 2024 3 6 5 0, mkDateTime 2024 3 7 5 0) ∧
    ¬ DateTime.le (calculate_cycle_boundaries .daily (mkDateTime 2024 3 6 2 0) 5).1
        (mkDateTime 2024 3 6 2 0) ∧
    (calculate_cycle_boundaries .daily (mkDateTime 2024 3 6 2 0) 5).1 ≠
      mkDateTime 2024 3 5 5 0 := by
  decide

/-- `Player.add_xp` takes exactly one of its two branches. -/
theorem player_add_xp_cases (p : Player) (a : Nat) :
    (p.xp_for_next_level ≤ p.xp + a ∧
      Player.add_xp p a =
        ({ p with xp := p.xp + a - p.xp_for_next_level, level := p.level + 1 }, true)) ∨
    (p.xp + a < p.xp_for_next_level ∧
      Player.add_xp p a = ({ p with xp := p.xp + a }, false)) := by
  unfold Player.add_xp
  dsimp only
  by_cases h : p.xp_for_next_level ≤ p.xp + a
  · exact Or.inl ⟨h, by rw [if_pos h]⟩
  · exact Or.inr ⟨by omega, by rw [if_neg h]⟩

/-- `Skill.add_xp` takes exactly one of its two branches. -/
theorem skill_add_xp_cases (s : Skill) (a : Nat) :
    (s.xp_for_next_level ≤ s.xp + a ∧
      Skill.add_xp s a =
        ({ s with xp := s.xp + a - s.xp_for_next_level, level := s.level + 1 }, true)) ∨
    (s.xp + a < s.xp_for_next_level ∧
      Skill.add_xp s a = ({ s with xp := s.xp + a }, false)) := by
  unfold Skill.add_xp
  dsimp only
  by_cases h : s.xp_for_next_level ≤ s.xp + a
  · exact Or.inl ⟨h, by rw [if_pos h]⟩
  · exact Or.inr ⟨by omega, by rw [if_neg h]⟩

/-- Claim C2 (amended): `add_xp` on either entity adds the amount and then
performs at most ONE level step (an `if`, not a `while`): the level never
decreases and rises by at most one per call, the returned flag holds exactly
when the requirement of the old level was reached, a skipped step leaves the
XP (below the old requirement) and the level unchanged, and a taken step
deducts the old requirement once — so one large award can leave the XP at or
above the requirement of the new level (see the counterexample). -/
theorem C2_add_xp_at_most_one_level (p : Player) (s : Skill) (a : Nat) :
    (p.level ≤ (Player.add_xp p a).1.level ∧
      (Player.add_xp p a).1.level ≤ p.level + 1 ∧
      ((Player.add_xp p a).2 = true ↔ p.xp_for_next_level ≤ p.xp + a) ∧
      ((Player.add_xp p a).2 = false →
        (Player.add_xp p a).1.level = p.level ∧ (Player.add_xp p a).1.xp = p.xp + a ∧
          p.xp + a < p.xp_for_next_level) ∧
      ((Player.add_xp p a).2 = true →
        (Player.add_xp p a).1.level = p.level + 1 ∧
          (Player.add_xp p a).1.xp + p.xp_for_next_level = p.xp + a)) ∧
    (s.level ≤ (Skill.add_xp s a).1.level ∧
      (Skill.add_xp s a).1.level ≤ s.level + 1 ∧
      ((Skill.add_xp s a).2 = true ↔ s.xp_for_next_level ≤ s.xp + a) ∧
      ((Skill.add_xp s a).2 = false →
        (Skill.add_xp s a).1.level = s.level ∧ (Skill.add_xp s a).1.xp = s.xp + a ∧
          s.xp + a < s.xp_for_next_level) ∧
      ((Skill.add_xp s a).2 = true →
        (Skill.add_xp s a).1.level = s.level + 1 ∧
          (Skill.add_xp s a).1.xp + s.xp_for_next_level = s.xp + a)) := by
  constructor
  · rcases player_add_xp_cases p a with ⟨h1, hE⟩ | ⟨h1, hE⟩ <;> rw [hE] <;> dsimp only
    · exact ⟨Nat.le_succ _, Nat.le_refl _, iff_of_true rfl h1,
        fun hx => Bool.noConfusion hx, fun _ => ⟨rfl, by omega⟩⟩
    · exact ⟨Nat.le_refl _, Nat.le_succ _,
        iff_of_false (fun hx => Bool.noConfusion hx) (by omega),
        fun _ => ⟨rfl, rfl, h1⟩, fun hx => Bool.noConfusion hx⟩
  · rcases skill_add_xp_cases s a with ⟨h1, hE⟩ | ⟨h1, hE⟩ <;> rw [hE] <;> dsimp only
    · exact ⟨Nat.le_succ _, Nat.le_refl _, iff_of_true rfl h1,
        fun hx => Bool.noConfusion hx, fun _ => ⟨rfl, by omega⟩⟩
    · exact ⟨Nat.le_refl _, Nat.le_succ _,
        iff_of_false (fun hx => Bool.noConfusion hx) (by omega),
        fun _ => ⟨rfl, rfl, h1⟩, fun hx => Bool.noConfusion hx⟩

/-- Claim C4 (amended): the alignment is a plain `replace(hour=day_starts_at)`
with no previous-day adjustment: daily boundaries start at hour
`day_starts_at` of the reference time's own day and end one day later, so
when the reference time's wall-clock hour is strictly before `day_starts_at`
the returned half-open interval does not contain the reference time. -/
theorem C4_daily_alignment_same_day (t : DateTime) (dsa : Nat) :
    (calculate_cycle_boundaries .daily t dsa).1.days = t.days ∧
    (calculate_cycle_boundaries .daily t dsa).1.usec = dsa * 3600000000 ∧
    (calculate_cycle_boundaries .daily t dsa).2.days = t.days + 1 ∧
    (calculate_cycle_boundaries .daily t dsa).2.usec = dsa * 3600000000 ∧
    (t.usec < dsa * 3600000000 →
      ¬ DateTime.le (calculate_cycle_boundaries .daily t dsa).1 t) := by
  unfold calculate_cycle_boundaries
  dsimp only
  refine ⟨rfl, rfl, rfl, rfl, fun h => ?_⟩
  unfold DateTime.le
  dsimp only
  omega

/-- Claim C5: after `start_new_cycle` the mission count equals the number of
missions passed in, the per-cycle hit flag is reset to false, and the target
is drawn afresh from the passed missions (by the injected index standing for
`random.choice`) exactly when at least 8 missions were passed; with fewer
than 8 it is cleared to `none`. -/
theorem C5_start_new_cycle_reset (skill : Skill) (missions : List Mission)
    (now : DateTime) (dsa rng : Nat) :
    (start_new_cycle skill missions now dsa rng).missions_count = missions.length ∧
    (start_new_cycle skill missions now dsa rng).has_hit_target_this_cycle = false ∧
    (8 ≤ missions.length →
      ∃ mm, mm ∈ missions ∧
        (start_new_cycle skill missions now dsa rng).target_mission_id = some mm.id) ∧
    (missions.length < 8 →
      (start_new_cycle skill missions now dsa rng).target_mission_id = none) := by
  refine ⟨start_new_cycle_missions_count skill missions now dsa rng,
    start_new_cycle_has_hit skill missions now dsa rng, ?_, ?_⟩
  · intro h8
    have hlt : rng % missions.length < missions.length := Nat.mod_lt _ (by omega)
    refine ⟨missions.get ⟨rng % missions.length, hlt⟩, List.get_mem _ _ _, ?_⟩
    rw [start_new_cycle_target, if_pos h8]
    unfold select_target_mission
    rw [List.get?_eq_get hlt]
  · intro hlt
    rw [start_new_cycle_target, if_neg (by omega)]

/-- Claim C8: weekly boundaries at day-start hour 0. Concretely, Wednesday
2024-03-06T10:00 yields the week [2024-03-04T00:00, 2024-03-11T00:00); in
general the start is a midnight Monday no later than the reference day, the
end is exactly seven days after it, and the half-open window contains the
reference time. -/
theorem C8_weekly_monday_window :
    calculate_cycle_boundaries .weekly (mkDateTime 2024 3 6 10 0) 0 =
      (mkDateTime 2024 3 4 0 0, mkDateTime 2024 3 11 0 0) ∧
    ∀ t : DateTime,
      (calculate_cycle_boundaries .weekly t 0).1.usec = 0 ∧
      DateTime.weekday (calculate_cycle_boundaries .weekly t 0).1 = 0 ∧
      (calculate_cycle_boundaries .weekly t 0).1.days ≤ t.days ∧
      t.days < (calculate_cycle_boundaries .weekly t 0).1.days + 7 ∧
      (calculate_cycle_boundaries .weekly t 0).2.days =
        (calculate_cycle_boundaries .weekly t 0).1.days + 7 ∧
      (calculate_cycle_boundaries .weekly t 0).2.usec = 0 ∧
      DateTime.le (calculate_cycle_boundaries .weekly t 0).1 t ∧
      DateTime.lt t (calculate_cycle_boundaries .weekly t 0).2 := by
  refine ⟨by decide, fun t => ?_⟩
  unfold calculate_cycle_boundaries DateTime.weekday DateTime.le DateTime.lt
  dsimp only
  refine ⟨rfl, ?_, ?_, ?_, rfl, rfl, ?_, ?_⟩ <;> omega

/-- Claim C7: on the concrete scenario — difficulty-2 mission, ready skill at
level 3 whose target is this mission and whose hit flag is down — one
`complete_mission` call leaves the player at 8 base + 80 bonus = 88 XP and 4
coins, the skill at 16 base + 160 bonus = 176 XP with its hit flag raised,
and reports the cycle bonus as applied. -/
theorem C7_difficulty_two_target_hit_totals :
    (complete_mission stT "m1" pl0 t_tue 0 "c1").map (fun o =>
        (o.player.xp, o.player.coins, o.xp_earned, o.coins_earned)) =
      .ok (88, 4, 8, 4) ∧
    (complete_mission stT "m1" pl0 t_tue 0 "c1").map (fun o =>
        ((get_skill o.state.skills "s1").map Skill.xp,
         (get_skill o.state.skills "s1").map Skill.has_hit_target_this_cycle,
         o.cycle_bonus_applied)) =
      .ok (some 176, some true, true) := by
  decide

end LifeRPG
